import Mathlib

/-!
Shallow embedding of a small scripting-language front end (lexer, recursive-descent
parser, AST with dual evaluate/render operations, shared symbol table), together
with theorems checking its documented behaviour.

Python integers embed as `ℤ`, Python floats as exact rationals `ℚ` (all values
produced by the language's arithmetic from integer literals are rational), Python
booleans as `Bool`, and Python `None` as an explicit `Value.none`.  Fallible
operations return `Except Err _`.  Recursive procedures take an explicit fuel
argument (first position); fuel exhaustion is the distinguished error
`Err.outOfFuel`, and top-level drivers supply fuel large enough that it is never
reached on their input.
-/

/-- Errors: the code raises `ValueError` (lexical, parse, unresolved identifier),
`EOFError`, `ZeroDivisionError` and `TypeError`; each raise site gets a constructor. -/
inductive Err where
  /-- Lexer: unrecognized character at a position. -/
  | lexicalError (c : Char) (line col : ℕ)
  /-- `eat` on an exhausted token stream ("Reached end of file"). -/
  | eofError
  /-- `eat`: unexpected token (expected kinds, actual value, position). -/
  | parseExpected (expected : List String) (got : String) (line col : ℕ)
  /-- `statements`: token opens no statement form. -/
  | badStatement
  /-- `factor` called with no tokens left (bare `ValueError`). -/
  | factorError
  /-- `assignment`: "Can't assign to comparison." -/
  | cantAssignComparison
  /-- `SymbolTable.get_or_raise`: "Variable ... not found". -/
  | unresolvedIdentifier (name : String)
  /-- Python `ZeroDivisionError` from `/`. -/
  | zeroDivisionError
  /-- Python `TypeError` (e.g. `range` over a non-integer). -/
  | typeError
  /-- Fuel exhaustion of the embedding (not a behaviour of the code). -/
  | outOfFuel
  deriving DecidableEq, Repr

/-! ## Tokens (lexer.py) -/

inductive TokenType where
  | LET | IF | ELIF | ELSE | ID | STRING | INT | REPEAT
  | L_BRACE | R_BRACE | L_PAREN | R_PAREN
  | LT | GT | EQUAL
  | PLUS | MINUS | MUL | DIV
  | SEMICOLON | COLON | TERNARY
  deriving DecidableEq, Repr

/-- The `value` string of each `TokenType` enum member. -/
def TokenType.str : TokenType → String
  | .LET => "let" | .IF => "if" | .ELIF => "elif" | .ELSE => "else"
  | .ID => "ID" | .STRING => "STRING" | .INT => "INT" | .REPEAT => "repeat"
  | .L_BRACE => "\x7b" | .R_BRACE => "\x7d" | .L_PAREN => "(" | .R_PAREN => ")"
  | .LT => "<" | .GT => ">" | .EQUAL => "="
  | .PLUS => "+" | .MINUS => "-" | .MUL => "*" | .DIV => "/"
  | .SEMICOLON => ";" | .COLON => ":" | .TERNARY => "?"

/-- `TokenType.get` on a one-character string (used for punctuation/operators). -/
def TokenType.getChar (c : Char) : Option TokenType :=
  if c = Char.ofNat 123 then some .L_BRACE
  else if c = Char.ofNat 125 then some .R_BRACE
  else if c = '(' then some .L_PAREN
  else if c = ')' then some .R_PAREN
  else if c = '<' then some .LT
  else if c = '>' then some .GT
  else if c = '=' then some .EQUAL
  else if c = '+' then some .PLUS
  else if c = '-' then some .MINUS
  else if c = '*' then some .MUL
  else if c = '/' then some .DIV
  else if c = ';' then some .SEMICOLON
  else if c = ':' then some .COLON
  else if c = '?' then some .TERNARY
  else none

/-- `TokenType.get` on a keyword string.  `and`, `or`, `not` are in `KEYWORDS`
but are not `TokenType` members, so `TokenType.get` yields Python `None` for
them, i.e. the emitted token's `type` field is `none`. -/
def TokenType.getKeyword (s : String) : Option TokenType :=
  if s = "let" then some .LET
  else if s = "if" then some .IF
  else if s = "elif" then some .ELIF
  else if s = "else" then some .ELSE
  else if s = "repeat" then some .REPEAT
  else none

/-- A token's `value` attribute: `int` for integer literals, a string otherwise. -/
inductive TokenValue where
  | int (n : ℤ)
  | str (s : String)
  deriving DecidableEq, Repr

/-- `Token`: type (possibly Python `None`, see `TokenType.getKeyword`), value,
1-based line and column of the token's first character. -/
structure Token where
  type : Option TokenType
  value : TokenValue
  line : ℕ
  col : ℕ
  deriving DecidableEq, Repr

/-! ## consts.py -/

def ID_VALID_START_CHARS : List Char :=
  "abcdefghijklmnopqrstuvwxyzABCDEFGHIJKLMNOPQRSTUVWXYZ_".toList

def ID_VALID_CHARS : List Char :=
  "abcdefghijklmnopqrstuvwxyzABCDEFGHIJKLMNOPQRSTUVWXYZ_0123456789".toList

def KEYWORDS : List String :=
  ["let", "if", "elif", "else", "and", "or", "not", "repeat"]

/-! ## Lexer (lexer.py)

State: the remaining characters (the Python object keeps an index into the full
source; only the suffix from that index is ever inspected) plus the current
1-based line and column. -/

structure LexState where
  rest : List Char
  line : ℕ
  col : ℕ
  deriving DecidableEq, Repr

/-- `Lexer.advance`: if the current character is a newline, bump the line and
reset the column to 1; then move one position and increment the column
unconditionally (so the first character after a newline is recorded at
column 2). -/
def advance (st : LexState) : LexState :=
  match st.rest with
  | [] => st
  | c :: rs =>
    let line := if c = '\n' then st.line + 1 else st.line
    let col := if c = '\n' then 1 else st.col
    { rest := rs, line := line, col := col + 1 }

/-- Python's `str.isspace` on the characters this lexer can meet. -/
def pyIsSpace (c : Char) : Bool :=
  c = ' ' || c = '\t' || c = '\n' || c = '\r' || c = Char.ofNat 11 || c = Char.ofNat 12

/-- `Lexer.get_chars`: greedily take characters satisfying `cond`. -/
def get_chars (cond : Char → Bool) : ℕ → LexState → List Char × LexState
  | 0, st => ([], st)
  | fuel + 1, st =>
    match st.rest with
    | [] => ([], st)
    | c :: _ =>
      if cond c then
        let (cs, st₁) := get_chars cond fuel (advance st)
        (c :: cs, st₁)
      else ([], st)

/-- `Lexer.skip_whitespace`. -/
def skip_whitespace : ℕ → LexState → LexState
  | 0, st => st
  | fuel + 1, st =>
    match st.rest with
    | [] => st
    | c :: _ => if pyIsSpace c then skip_whitespace fuel (advance st) else st

/-- `Lexer.skip_comment`: skip to (but not past) the next newline. -/
def skip_comment : ℕ → LexState → LexState
  | 0, st => st
  | fuel + 1, st =>
    match st.rest with
    | [] => st
    | c :: _ => if c ≠ '\n' then skip_comment fuel (advance st) else st

/-- Decimal value of a digit list (Python `int` on the scanned digits). -/
def digitsVal (ds : List Char) : ℤ :=
  ds.foldl (fun acc c => 10 * acc + (c.toNat - 48 : ℤ)) 0

/-- The body of `Lexer.tokenize`: one iteration per emitted token / skipped run,
dispatching on the current character exactly as the Python `while` body does. -/
def tokenizeLoop : ℕ → LexState → Except Err (List Token)
  | 0, _ => .error .outOfFuel
  | fuel + 1, st =>
    match st.rest with
    | [] => .ok []
    | c :: _ =>
      let line := st.line
      let col := st.col
      if c.isDigit then
        let (ds, st₁) := get_chars Char.isDigit fuel st
        let tok : Token := ⟨some .INT, .int (digitsVal ds), line, col⟩
        (tokenizeLoop fuel st₁).map (fun toks => tok :: toks)
      else if c ∈ ID_VALID_START_CHARS then
        let (cs, st₁) := get_chars (fun ch => ch ∈ ID_VALID_CHARS) fuel st
        let identifier := String.mk cs
        let ttype : Option TokenType :=
          if identifier ∈ KEYWORDS then TokenType.getKeyword identifier else some .ID
        let tok : Token := ⟨ttype, .str identifier, line, col⟩
        (tokenizeLoop fuel st₁).map (fun toks => tok :: toks)
      else
        match TokenType.getChar c with
        | some ttype =>
          let tok : Token := ⟨some ttype, .str ttype.str, line, col⟩
          (tokenizeLoop fuel (advance st)).map (fun toks => tok :: toks)
        | none =>
          if pyIsSpace c then tokenizeLoop fuel (skip_whitespace fuel st)
          else if c = '#' then tokenizeLoop fuel (skip_comment fuel st)
          else .error (.lexicalError c line col)

/-- `Lexer(source).tokenize()`: initial position is line 1, column 1.  The fuel
`2 * length + 2` covers every loop iteration and inner scan. -/
def tokenize (src : String) : Except Err (List Token) :=
  tokenizeLoop (2 * src.length + 2) ⟨src.toList, 1, 1⟩

/-! ## AST (ast.py)

Arithmetic and comparison operators are the op strings the parser can store
(`"+" "-" "*" "/"` and `"<" ">"`). -/

inductive AOp where
  | add | sub | mul | div
  deriving DecidableEq, Repr

def AOp.str : AOp → String
  | .add => "+" | .sub => "-" | .mul => "*" | .div => "/"

inductive COp where
  | lt | gt
  deriving DecidableEq, Repr

def COp.str : COp → String
  | .lt => "<" | .gt => ">"

/-- The closed set of node classes.  `standalone` is the marker the parser
attaches to expression-statements (it is read only by `Literal`, `Reference`
and `ArithmeticOp`, the `LogMixin` subclasses, so only those carry it here). -/
inductive Node where
  | Module (statements : List Node)
  | Literal (value : ℤ) (standalone : Bool)
  | Reference (name : String) (standalone : Bool)
  | ArithmeticOp (left : Node) (op : AOp) (right : Node) (standalone : Bool)
  | CompOp (left : Node) (op : COp) (right : Node)
  | Assignment (name : String) (value : Node)
  | Ternary (condition ifTruthy ifFalsy : Node)
  | IfStatement (condition : Node) (block : List Node)
      (elseifStatements : List Node) (elseBlock : List Node)
  | Repeat (times : Node) (block : List Node)
  deriving Repr

/-- Runtime values: Python int / float / bool / None.  Floats are modelled as
exact rationals (every float the language can produce arises from `/` on
previously integral values). -/
inductive Value where
  | int (n : ℤ)
  | float (q : ℚ)
  | bool (b : Bool)
  | none
  deriving DecidableEq, Repr

/-- The symbol table's dict, as an association list; `envAdd` prepends, and
lookups take the most recent binding, matching overwrite semantics. -/
abbrev Env := List (String × Value)

def envAdd (env : Env) (name : String) (v : Value) : Env := (name, v) :: env

/-- `symbols.get(name)`. -/
def envGet (env : Env) (name : String) : Option Value :=
  (env.find? (fun p => p.1 == name)).map (fun p => p.2)

/-- `SymbolTable.get_or_raise`: the Python code tests `get(name) is None`, so a
missing key and a key bound to `None` both raise. -/
def get_or_raise (env : Env) (name : String) : Except Err Value :=
  match envGet env name with
  | Option.some Value.none => .error (.unresolvedIdentifier name)
  | Option.some v => .ok v
  | Option.none => .error (.unresolvedIdentifier name)

/-- Numeric view of a value (Python treats `bool` as the ints 0/1); `Value.none`
has no numeric view, and arithmetic/comparisons on it raise `TypeError`. -/
def Value.toQ : Value → Option ℚ
  | .int n => some (n : ℚ)
  | .float q => some q
  | .bool b => some (if b then 1 else 0)
  | .none => Option.none

/-- Integer view: defined exactly when the value is an int or a bool, i.e. when
Python arithmetic on it stays integral. -/
def Value.toZ : Value → Option ℤ
  | .int n => some n
  | .float _ => Option.none
  | .bool b => some (if b then 1 else 0)
  | .none => Option.none

/-- Python `== 0` test on a numeric value (guards `ZeroDivisionError`). -/
def Value.isZero : Value → Bool
  | .int n => n = 0
  | .float q => q = 0
  | .bool b => !b
  | .none => false

/-- Python truthiness of the values that can occur here. -/
def truthy : Value → Bool
  | .int n => n ≠ 0
  | .float q => q ≠ 0
  | .bool b => b
  | .none => false

def AOp.onZ : AOp → ℤ → ℤ → ℤ
  | .add, x, y => x + y
  | .sub, x, y => x - y
  | .mul, x, y => x * y
  | .div, _, _ => 0

def AOp.onQ : AOp → ℚ → ℚ → ℚ
  | .add, x, y => x + y
  | .sub, x, y => x - y
  | .mul, x, y => x * y
  | .div, x, y => x / y

/-- `ARITHMETIC_OP_MAPPINGS[op](x, y)`: `+ - *` keep ints integral and produce
floats once a float is involved; `/` is true division, always a float, raising
`ZeroDivisionError` on a zero divisor.  Non-numeric operands raise `TypeError`. -/
def applyArith (op : AOp) (a b : Value) : Except Err Value :=
  match a.toQ, b.toQ with
  | some x, some y =>
    match op with
    | .div => if b.isZero then .error .zeroDivisionError else .ok (.float (x / y))
    | _ =>
      match a.toZ, b.toZ with
      | some m, some n => .ok (.int (op.onZ m n))
      | _, _ => .ok (.float (op.onQ x y))
  | _, _ => .error .typeError

/-- `COMP_OP_MAPPINGS[op](x, y)`: numeric comparison (ints compared in `ℤ`,
mixtures in `ℚ`), `TypeError` on `None`. -/
def applyComp (op : COp) (a b : Value) : Except Err Value :=
  match a.toQ, b.toQ with
  | some x, some y =>
    match a.toZ, b.toZ with
    | some m, some n => .ok (.bool (match op with | .lt => m < n | .gt => m > n))
    | _, _ => .ok (.bool (match op with | .lt => x < y | .gt => x > y))
  | _, _ => .error .typeError

/-- `range(v)` in `Repeat.eval`: ints (and bools) give `max v 0` iterations,
anything else raises `TypeError`; in particular a float bound is an error. -/
def repCount : Value → Except Err ℕ
  | .int n => .ok n.toNat
  | .bool b => .ok (if b then 1 else 0)
  | .float _ => .error .typeError
  | .none => .error .typeError

/-! ## Evaluation (the `eval` methods)

`evalNode fuel node env` returns the node's value, the updated environment and
the list of values printed by `standalone`-marked nodes (`LogMixin.log`), in
print order. -/

mutual
def evalNode : ℕ → Node → Env → Except Err (Value × Env × List Value)
  | 0, _, _ => .error .outOfFuel
  | fuel + 1, node, env =>
    match node with
    | .Module stmts => do
        let (env₁, out) ← evalSeq fuel stmts env
        .ok (.none, env₁, out)
    | .Literal v st => .ok (.int v, env, if st then [Value.int v] else [])
    | .Reference name st => do
        let v ← get_or_raise env name
        .ok (v, env, if st then [v] else [])
    | .ArithmeticOp l op r st => do
        let (a, env₁, o₁) ← evalNode fuel l env
        let (b, env₂, o₂) ← evalNode fuel r env₁
        let v ← applyArith op a b
        .ok (v, env₂, o₁ ++ o₂ ++ if st then [v] else [])
    | .CompOp l op r => do
        let (a, env₁, o₁) ← evalNode fuel l env
        let (b, env₂, o₂) ← evalNode fuel r env₁
        let v ← applyComp op a b
        .ok (v, env₂, o₁ ++ o₂)
    | .Assignment name value => do
        let (v, env₁, o₁) ← evalNode fuel value env
        .ok (.none, envAdd env₁ name v, o₁)
    | .Ternary c t f => do
        let (v, env₁, o₁) ← evalNode fuel c env
        if truthy v then
          let (w, env₂, o₂) ← evalNode fuel t env₁
          .ok (w, env₂, o₁ ++ o₂)
        else
          let (w, env₂, o₂) ← evalNode fuel f env₁
          .ok (w, env₂, o₁ ++ o₂)
    | .IfStatement c blk elifs els => do
        let (v, env₁, o₁) ← evalNode fuel c env
        if truthy v then
          let (env₂, o₂) ← evalSeq fuel blk env₁
          .ok (.bool true, env₂, o₁ ++ o₂)
        else
          let (handled, env₂, o₂) ← evalElifs fuel elifs env₁
          if handled then .ok (.bool true, env₂, o₁ ++ o₂)
          else do
            let (env₃, o₃) ← evalSeq fuel els env₂
            .ok (.bool false, env₃, o₁ ++ o₂ ++ o₃)
    | .Repeat times blk => do
        let (v, env₁, o₁) ← evalNode fuel times env
        let n ← repCount v
        let (env₂, o₂) ← evalRepeatN fuel n blk env₁
        .ok (.none, env₂, o₁ ++ o₂)

/-- Statement blocks (`Module.eval`'s loop, and the block loops of
`IfStatement.eval` / `Repeat.eval`): evaluate in order, thread the shared
environment, discard statement values. -/
def evalSeq : ℕ → List Node → Env → Except Err (Env × List Value)
  | 0, _, _ => .error .outOfFuel
  | fuel + 1, stmts, env =>
    match stmts with
    | [] => .ok (env, [])
    | s :: rest => do
        let (_, env₁, o₁) ← evalNode fuel s env
        let (env₂, o₂) ← evalSeq fuel rest env₁
        .ok (env₂, o₁ ++ o₂)

/-- The `for node in self.elseif_statements: if node.eval(env): return True`
loop: evaluate each elif (truthiness of its result decides "handled"). -/
def evalElifs : ℕ → List Node → Env → Except Err (Bool × Env × List Value)
  | 0, _, _ => .error .outOfFuel
  | fuel + 1, elifs, env =>
    match elifs with
    | [] => .ok (false, env, [])
    | e :: rest => do
        let (v, env₁, o₁) ← evalNode fuel e env
        if truthy v then .ok (true, env₁, o₁)
        else do
          let (b, env₂, o₂) ← evalElifs fuel rest env₁
          .ok (b, env₂, o₁ ++ o₂)

/-- `for _ in range(n): <block>` with the iteration count already fixed. -/
def evalRepeatN : ℕ → ℕ → List Node → Env → Except Err (Env × List Value)
  | 0, _, _, _ => .error .outOfFuel
  | fuel + 1, n, blk, env =>
    match n with
    | 0 => .ok (env, [])
    | m + 1 => do
        let (env₁, o₁) ← evalSeq fuel blk env
        let (env₂, o₂) ← evalRepeatN fuel m blk env₁
        .ok (env₂, o₁ ++ o₂)
end

/-! ## Rendering (the `compile` methods)

`compileNode fuel node env indent` returns the emitted target-language text and
the updated environment (rendering an assignment evaluates its right-hand side
to keep concrete values available, mutating the shared symbol table). -/

def spaces (n : ℕ) : String := String.mk (List.replicate n ' ')

/-- Text a value takes when interpolated into an f-string (the `Repeat.compile`
loop bound).  Floats cannot reach this spot in a program the toolchain accepts;
their decimal spelling is abstracted by the raw rational. -/
def pyRepr : Value → String
  | .int n => toString n
  | .float q => toString q
  | .bool b => if b then "True" else "False"
  | .none => "None"

/-- `getattr(self.right, "op", "None") in "+-"`: the right operand carries an
additive op string.  (A comparison's `<`/`>` is not in `"+-"`, and leaf nodes
have no `op` attribute.) -/
def rightOpAdditive : Node → Bool
  | .ArithmeticOp _ op _ _ => op = .add || op = .sub
  | _ => false

/-- `env.symbols.get(name) is None`: key absent, or bound to Python `None`. -/
def pyGetIsNone (env : Env) (name : String) : Bool :=
  match envGet env name with
  | Option.none => true
  | Option.some Value.none => true
  | Option.some _ => false

/-- `Repeat._new_id`: the source draws six random letters and retries while the
candidate is an existing key.  The randomness is abstracted into a deterministic
candidate enumeration with the same uniqueness check (cf. the design note that a
counter-based generator with the same check preserves the observable contract);
a free candidate always exists among the first `length + 1`. -/
def idCandidate (k : ℕ) : String := "loopvar" ++ toString k

def _new_id (env : Env) : String :=
  match (List.range (env.length + 1)).find? (fun k => (envGet env (idCandidate k)).isNone) with
  | some k => idCandidate k
  | Option.none => idCandidate 0

mutual
def compileNode : ℕ → Node → Env → ℕ → Except Err (String × Env)
  | 0, _, _, _ => .error .outOfFuel
  | fuel + 1, node, env, indent =>
    match node with
    | .Module stmts => do
        let (codes, env₁) ← compileSeq fuel stmts env (indent + 4)
        let head := "#include <stdio.h>\n#include <time.h>\n\nint main() \x7b\n"
          ++ spaces (indent + 4) ++ "clock_t start_time = clock();\n"
        let body := String.join (codes.map (fun s => s ++ "\n"))
        let l₁ := "double elapsed_time = (double)(clock() - start_time) / CLOCKS_PER_SEC;\n"
        let l₂ := "printf(\"Ausgeführt in %f Sekunden.\\n\", elapsed_time);\n"
        let l₃ := "return 0;\n"
        let tail := spaces (indent + 4) ++ l₁ ++ spaces (indent + 4) ++ l₂
          ++ spaces (indent + 4) ++ l₃ ++ "\x7d"
        .ok (head ++ body ++ tail, env₁)
    | .Literal v st =>
        if st then .ok (spaces indent ++ "printf(\"" ++ toString v ++ "\\n\");", env)
        else .ok (toString v, env)
    | .Reference name st => do
        let _ ← get_or_raise env name
        if st then .ok (spaces indent ++ "printf(\"%i\\n\", " ++ name ++ ");", env)
        else .ok (name, env)
    | .ArithmeticOp l op r st => do
        let (ls, env₁) ← compileNode fuel l env indent
        let (rs, env₂) ← compileNode fuel r env₁ indent
        let code :=
          if (op = .mul || op = .div) && rightOpAdditive r then
            ls ++ " " ++ op.str ++ " " ++ "(" ++ rs ++ ")"
          else
            ls ++ " " ++ op.str ++ " " ++ rs
        if st then .ok (spaces indent ++ "printf(\"%i\\n\", " ++ code ++ ");", env₂)
        else .ok (code, env₂)
    | .CompOp l op r => do
        let (ls, env₁) ← compileNode fuel l env indent
        let (rs, env₂) ← compileNode fuel r env₁ indent
        .ok (ls ++ " " ++ op.str ++ " " ++ rs, env₂)
    | .Assignment name value =>
        if pyGetIsNone env name then do
          let (v, env₁, _) ← evalNode fuel value env
          let env₂ := envAdd env₁ name v
          let (vs, env₃) ← compileNode fuel value env₂ indent
          .ok (spaces indent ++ "int " ++ name ++ " = " ++ vs ++ ";", env₃)
        else do
          let (vs, env₁) ← compileNode fuel value env indent
          .ok (spaces indent ++ name ++ " = " ++ vs ++ ";", env₁)
    | .Ternary c t f => do
        let (cs, env₁) ← compileNode fuel c env indent
        let (ts, env₂) ← compileNode fuel t env₁ indent
        let (fs, env₃) ← compileNode fuel f env₂ indent
        .ok (cs ++ " ? " ++ ts ++ " : " ++ fs, env₃)
    | .IfStatement c blk elifs els => do
        let (cs, env₁) ← compileNode fuel c env indent
        let (blks, env₂) ← compileSeq fuel blk env₁ (indent + 4)
        let code₁ := spaces indent ++ "if (" ++ cs ++ ") \x7b"
          ++ String.join (blks.map (fun s => "\n" ++ s))
          ++ "\n" ++ spaces indent ++ "\x7d"
        let (elifCodes, env₃) ← compileSeq fuel elifs env₂ indent
        let code₂ := code₁
          ++ String.join (elifCodes.map (fun s => "\n" ++ spaces indent ++ "else " ++ s))
        match els with
        | [] => .ok (code₂, env₃)
        | _ => do
          let (elsCodes, env₄) ← compileSeq fuel els env₃ (indent + 4)
          let code₃ := code₂ ++ "\n" ++ spaces indent ++ "else \x7b"
            ++ String.join (elsCodes.map (fun s => "\n" ++ s))
            ++ "\n" ++ spaces indent ++ "\x7d"
          .ok (code₃, env₄)
    | .Repeat times blk => do
        let id₀ := _new_id env
        let (tv, env₁, _) ← evalNode fuel times env
        let (blks, env₂) ← compileSeq fuel blk env₁ (indent + 4)
        let code := spaces indent ++ "for (int " ++ id₀ ++ " = 0; " ++ id₀ ++ " < "
          ++ pyRepr tv ++ "; " ++ id₀ ++ "++) \x7b"
          ++ String.join (blks.map (fun s => "\n" ++ s))
          ++ "\n" ++ spaces indent ++ "\x7d"
        .ok (code, env₂)

/-- Compile a statement list in order, threading the environment; the callers
join the pieces with their own separators. -/
def compileSeq : ℕ → List Node → Env → ℕ → Except Err (List String × Env)
  | 0, _, _, _ => .error .outOfFuel
  | fuel + 1, stmts, env, indent =>
    match stmts with
    | [] => .ok ([], env)
    | s :: rest => do
        let (code, env₁) ← compileNode fuel s env indent
        let (codes, env₂) ← compileSeq fuel rest env₁ indent
        .ok (code :: codes, env₂)
end

/-! ## Parser (parser.py)

Functions return the built node(s) together with the remaining token stream
(the Python object advances a position index instead).  `TOKEN_NODE_MAPPING`
sends `INT` to `Literal` and `ID` to `Reference`. -/

/-- Text of a token value as it appears in error messages / assignment names
(lexer-produced `ID` tokens always carry strings;
an integer there is an unreachable corner rendered decimally). -/
def TokenValue.asName : TokenValue → String
  | .str s => s
  | .int n => toString n

/-- Python `str * int` (used by `factor` as `token.value * factor`): a
non-positive factor yields the empty string. -/
def pyStrMul (s : String) (k : ℤ) : String :=
  if k ≤ 0 then "" else String.join (List.replicate k.toNat s)

/-- `token.value * factor` on an `INT` token's integer payload. -/
def TokenValue.mulInt : TokenValue → ℤ → ℤ
  | .int n, f => n * f
  | .str _, _ => 0

/-- `token.value * factor` on an `ID` token's string payload. -/
def TokenValue.mulStr : TokenValue → ℤ → String
  | .str s, f => pyStrMul s f
  | .int n, f => toString (n * f)

/-- `node.standalone = True` (only the `LogMixin` nodes read the marker). -/
def setStandalone : Node → Node
  | .Literal v _ => .Literal v true
  | .Reference n _ => .Reference n true
  | .ArithmeticOp l op r _ => .ArithmeticOp l op r true
  | n => n

/-- `isinstance(value, ast.CompOp)`. -/
def isCompNode : Node → Bool
  | .CompOp _ _ _ => true
  | _ => false

/-- `NOT_R_BRACE_CONDITION`. -/
def notRBrace (tok : Token) : Bool := tok.type ≠ some TokenType.R_BRACE

/-- `Parser.eat`: demand one of the given token kinds; `EOFError` past the end,
otherwise a ParseError naming the acceptable kinds, the actual value and its
position.  Returns the consumed token with the remaining stream. -/
def eat (tts : List TokenType) (toks : List Token) : Except Err (Token × List Token) :=
  match toks with
  | [] => .error .eofError
  | tok :: rest =>
    match tok.type with
    | some tt => if tt ∈ tts then .ok (tok, rest)
        else .error (.parseExpected (tts.map TokenType.str) tok.value.asName tok.line tok.col)
    | Option.none => .error (.parseExpected (tts.map TokenType.str) tok.value.asName tok.line tok.col)

mutual
/-- `Parser.statements`: the statement-dispatch loop, running while tokens
remain and `cond` holds of the lookahead. -/
def statements : ℕ → (Token → Bool) → List Token → Except Err (List Node × List Token)
  | 0, _, _ => .error .outOfFuel
  | fuel + 1, cond, toks =>
    match toks with
    | [] => .ok ([], [])
    | tok :: _ =>
      if cond tok then
        match tok.type with
        | some .INT | some .ID | some .L_PAREN => do
            let (node, toks₁) ← expr fuel toks
            let node := setStandalone node
            let (_, toks₂) ← eat [.SEMICOLON] toks₁
            let (rest, toks₃) ← statements fuel cond toks₂
            .ok (node :: rest, toks₃)
        | some .LET => do
            let (node, toks₁) ← assignment fuel toks
            let (_, toks₂) ← eat [.SEMICOLON] toks₁
            let (rest, toks₃) ← statements fuel cond toks₂
            .ok (node :: rest, toks₃)
        | some .REPEAT => do
            let (node, toks₁) ← repeat_stmt fuel toks
            let (rest, toks₂) ← statements fuel cond toks₁
            .ok (node :: rest, toks₂)
        | some .IF => do
            let (node, toks₁) ← if_statement fuel toks
            let (rest, toks₂) ← statements fuel cond toks₁
            .ok (node :: rest, toks₂)
        | _ => .error .badStatement
      else .ok ([], toks)

/-- `Parser.repeat`. -/
def repeat_stmt : ℕ → List Token → Except Err (Node × List Token)
  | 0, _ => .error .outOfFuel
  | fuel + 1, toks => do
      let (_, toks₁) ← eat [.REPEAT] toks
      let (times, toks₂) ← expr fuel toks₁
      let (_, toks₃) ← eat [.L_BRACE] toks₂
      let (blk, toks₄) ← statements fuel notRBrace toks₃
      let (_, toks₅) ← eat [.R_BRACE] toks₄
      .ok (.Repeat times blk, toks₅)

/-- `Parser.ternary` (always reached with the comparison already parsed and
passed in as the condition). -/
def ternary : ℕ → Node → List Token → Except Err (Node × List Token)
  | 0, _, _ => .error .outOfFuel
  | fuel + 1, condition, toks => do
      let (_, toks₁) ← eat [.TERNARY] toks
      let (ifTruthy, toks₂) ← expr fuel toks₁
      let (_, toks₃) ← eat [.COLON] toks₂
      let (ifFalsy, toks₄) ← expr fuel toks₃
      .ok (.Ternary condition ifTruthy ifFalsy, toks₄)

/-- `Parser.assignment`: `let <id> = <comparison-expr>` with an optional
ternary suffix; a value that is (still) a comparison node is rejected with
"Can't assign to comparison." -/
def assignment : ℕ → List Token → Except Err (Node × List Token)
  | 0, _ => .error .outOfFuel
  | fuel + 1, toks => do
      let (_, toks₁) ← eat [.LET] toks
      let (idTok, toks₂) ← eat [.ID] toks₁
      let (_, toks₃) ← eat [.EQUAL] toks₂
      let (value, toks₄) ← comparison_expr fuel toks₃
      let (value, toks₅) ←
        match toks₄ with
        | ternTok :: _ =>
          if ternTok.type = some .TERNARY then ternary fuel value toks₄
          else .ok (value, toks₄)
        | [] => .ok (value, toks₄)
      if isCompNode value then .error .cantAssignComparison
      else .ok (.Assignment idTok.value.asName value, toks₅)

/-- `Parser.if_statement` (also parses each `elif`, via `eat(IF, ELIF)`). -/
def if_statement : ℕ → List Token → Except Err (Node × List Token)
  | 0, _ => .error .outOfFuel
  | fuel + 1, toks => do
      let (_, toks₁) ← eat [.IF, .ELIF] toks
      let (condition, toks₂) ← comparison_expr fuel toks₁
      let (_, toks₃) ← eat [.L_BRACE] toks₂
      let (stats, toks₄) ← statements fuel notRBrace toks₃
      let (_, toks₅) ← eat [.R_BRACE] toks₄
      let (elifs, toks₆) ← elif_loop fuel toks₅
      match toks₆ with
      | elseTok :: _ =>
        if elseTok.type = some .ELSE then do
          let (_, toks₇) ← eat [.ELSE] toks₆
          let (_, toks₈) ← eat [.L_BRACE] toks₇
          let (elseBlk, toks₉) ← statements fuel notRBrace toks₈
          let (_, toks₁₀) ← eat [.R_BRACE] toks₉
          .ok (.IfStatement condition stats elifs elseBlk, toks₁₀)
        else .ok (.IfStatement condition stats elifs [], toks₆)
      | [] => .ok (.IfStatement condition stats elifs [], toks₆)

/-- The `while ... is TokenType.ELIF` loop of `if_statement`: each iteration
re-enters `if_statement` recursively. -/
def elif_loop : ℕ → List Token → Except Err (List Node × List Token)
  | 0, _ => .error .outOfFuel
  | fuel + 1, toks =>
    match toks with
    | tok :: _ =>
      if tok.type = some .ELIF then do
        let (node, toks₁) ← if_statement fuel toks
        let (rest, toks₂) ← elif_loop fuel toks₁
        .ok (node :: rest, toks₂)
      else .ok ([], toks)
    | [] => .ok ([], toks)

/-- `Parser.factor`: parenthesized expression, or an optionally signed
`INT`/`ID`.  Both sign tests look at the *original* lookahead token, and the
sign is applied by multiplying the token's raw value — `-1 * <string>` is the
empty string, so `- <id>` builds a `Reference` named `""`. -/
def factor : ℕ → List Token → Except Err (Node × List Token)
  | 0, _ => .error .outOfFuel
  | fuel + 1, toks =>
    match toks with
    | [] => .error .factorError
    | tok :: _ =>
      if tok.type = some .L_PAREN then do
        let (_, toks₁) ← eat [.L_PAREN] toks
        let (node, toks₂) ← expr fuel toks₁
        let (_, toks₃) ← eat [.R_PAREN] toks₂
        .ok (node, toks₃)
      else do
        let f : ℤ := if tok.type = some .MINUS then -1 else 1
        let toks₁ ← if tok.type = some .MINUS then (eat [.MINUS] toks).map Prod.snd
          else .ok toks
        let toks₂ ← if tok.type = some .PLUS then (eat [.PLUS] toks₁).map Prod.snd
          else .ok toks₁
        let (vTok, toks₃) ← eat [.INT, .ID] toks₂
        match vTok.type with
        | some .INT => .ok (.Literal (vTok.value.mulInt f) false, toks₃)
        | some .ID => .ok (.Reference (vTok.value.mulStr f) false, toks₃)
        | _ => .error .factorError

/-- `Parser.mult` = one `factor` plus the `* /` loop. -/
def mult : ℕ → List Token → Except Err (Node × List Token)
  | 0, _ => .error .outOfFuel
  | fuel + 1, toks => do
      let (node, toks₁) ← factor fuel toks
      mult_loop fuel node toks₁

def mult_loop : ℕ → Node → List Token → Except Err (Node × List Token)
  | 0, _, _ => .error .outOfFuel
  | fuel + 1, node, toks =>
    match toks with
    | tok :: _ =>
      if tok.type = some .MUL || tok.type = some .DIV then do
        let (_, toks₁) ← eat [if tok.type = some .MUL then .MUL else .DIV] toks
        let (r, toks₂) ← factor fuel toks₁
        let op : AOp := if tok.type = some .MUL then .mul else .div
        mult_loop fuel (.ArithmeticOp node op r false) toks₂
      else .ok (node, toks)
    | [] => .ok (node, toks)

/-- `Parser.expr` = one `mult` plus the `+ -` loop. -/
def expr : ℕ → List Token → Except Err (Node × List Token)
  | 0, _ => .error .outOfFuel
  | fuel + 1, toks => do
      let (node, toks₁) ← mult fuel toks
      expr_loop fuel node toks₁

def expr_loop : ℕ → Node → List Token → Except Err (Node × List Token)
  | 0, _, _ => .error .outOfFuel
  | fuel + 1, node, toks =>
    match toks with
    | tok :: _ =>
      if tok.type = some .PLUS || tok.type = some .MINUS then do
        let (_, toks₁) ← eat [if tok.type = some .PLUS then .PLUS else .MINUS] toks
        let (r, toks₂) ← mult fuel toks₁
        let op : AOp := if tok.type = some .PLUS then .add else .sub
        expr_loop fuel (.ArithmeticOp node op r false) toks₂
      else .ok (node, toks)
    | [] => .ok (node, toks)

/-- `Parser.comparison_expr` = one `expr` plus the `< >` loop (the loop admits
chained comparisons, nesting to the left). -/
def comparison_expr : ℕ → List Token → Except Err (Node × List Token)
  | 0, _ => .error .outOfFuel
  | fuel + 1, toks => do
      let (node, toks₁) ← expr fuel toks
      comparison_loop fuel node toks₁

def comparison_loop : ℕ → Node → List Token → Except Err (Node × List Token)
  | 0, _, _ => .error .outOfFuel
  | fuel + 1, node, toks =>
    match toks with
    | tok :: _ =>
      if tok.type = some .GT || tok.type = some .LT then do
        let (_, toks₁) ← eat [if tok.type = some .GT then .GT else .LT] toks
        let (r, toks₂) ← expr fuel toks₁
        let op : COp := if tok.type = some .GT then .gt else .lt
        comparison_loop fuel (.CompOp node op r) toks₂
      else .ok (node, toks)
    | [] => .ok (node, toks)
end

/-- `Parser.parse`: the statement loop with an always-true condition (it runs
to the end of the stream), wrapped in a `Module`. -/
def parse (fuel : ℕ) (toks : List Token) : Except Err Node :=
  (statements fuel (fun _ => true) toks).map (fun p => .Module p.1)

/-! ## Drivers (interpreter.py / compiler.py): lex once, parse once, then one
of evaluate / render against a fresh symbol table. -/

/-- Fuel that dominates the parser's recursion depth on `toks`. -/
def parseFuel (toks : List Token) : ℕ := 8 * toks.length + 8

def parseProgram (src : String) : Except Err Node := do
  let toks ← tokenize src
  parse (parseFuel toks) toks

/-- Parse and evaluate against an empty symbol table; yields the final
environment and the printed values. -/
def evalProgram (src : String) : Except Err (Env × List Value) := do
  let m ← parseProgram src
  let (_, env, out) ← evalNode 1000 m []
  .ok (env, out)

/-- Parse and render against an empty symbol table; yields the emitted text. -/
def compileProgram (src : String) : Except Err String := do
  let m ← parseProgram src
  let (code, _) ← compileNode 1000 m [] 0
  .ok code

/-! ## Invariants used by the theorems -/

/-- A token as the lexer can emit it: when its type is `ID`, its payload is a
nonempty string (identifier scans always take at least the starting character). -/
def GoodTok (tok : Token) : Prop :=
  tok.type = some TokenType.ID → ∃ s, tok.value = .str s ∧ s ≠ ""

def GoodToks (toks : List Token) : Prop := ∀ tok ∈ toks, GoodTok tok

/-- Every `Assignment` node in the tree binds a nonempty name. -/
inductive NoEmptyAssign : Node → Prop where
  | mod : (∀ s ∈ stmts, NoEmptyAssign s) → NoEmptyAssign (.Module stmts)
  | lit : NoEmptyAssign (.Literal v st)
  | ref : NoEmptyAssign (.Reference name st)
  | arith : NoEmptyAssign l → NoEmptyAssign r → NoEmptyAssign (.ArithmeticOp l op r st)
  | comp : NoEmptyAssign l → NoEmptyAssign r → NoEmptyAssign (.CompOp l op r)
  | assign : name ≠ "" → NoEmptyAssign value → NoEmptyAssign (.Assignment name value)
  | tern : NoEmptyAssign c → NoEmptyAssign t → NoEmptyAssign f →
      NoEmptyAssign (.Ternary c t f)
  | ifs : NoEmptyAssign c → (∀ s ∈ blk, NoEmptyAssign s) →
      (∀ s ∈ elifs, NoEmptyAssign s) → (∀ s ∈ els, NoEmptyAssign s) →
      NoEmptyAssign (.IfStatement c blk elifs els)
  | rep : NoEmptyAssign times → (∀ s ∈ blk, NoEmptyAssign s) →
      NoEmptyAssign (.Repeat times blk)

/-! ## Canonical conditional chains

Schematic token streams and expected trees for the conditional chains of the
grammar, `if c { v; } (elif cᵢ { vᵢ; })* (else { w; })?`, with identifier
conditions and one literal expression-statement per block; positions are
irrelevant to parsing (only token types are inspected) and set to 0. -/

def tokOf (tt : TokenType) : Token := ⟨some tt, .str tt.str, 0, 0⟩

def idTokOf (s : String) : Token := ⟨some .ID, .str s, 0, 0⟩

def intTokOf (n : ℤ) : Token := ⟨some .INT, .int n, 0, 0⟩

/-- The tokens of `c \x7b v; \x7d` (a clause's condition and block). -/
def condBlockToks (c : String) (v : ℤ) : List Token :=
  [idTokOf c, tokOf .L_BRACE, intTokOf v, tokOf .SEMICOLON, tokOf .R_BRACE]

/-- The tokens of the elif clauses followed by the optional else block. -/
def elifChainToks : List (String × ℤ) → Option ℤ → List Token
  | [], Option.none => []
  | [], some w => tokOf .ELSE :: tokOf .L_BRACE :: intTokOf w
      :: tokOf .SEMICOLON :: [tokOf .R_BRACE]
  | (c, v) :: rest, els => tokOf .ELIF :: condBlockToks c v ++ elifChainToks rest els

/-- The tokens of a whole chain `if c \x7b v; \x7d elif ... else ...`. -/
def ifChainToks (c : String) (v : ℤ) (elifs : List (String × ℤ))
    (els : Option ℤ) : List Token :=
  tokOf .IF :: condBlockToks c v ++ elifChainToks elifs els

/-- The tree the recursive elif parse builds for a canonical chain: each level
carries at most one nested Conditional in its elif list (the next clause, which
holds the rest of the chain), and the else block sits at the innermost level. -/
def ifChainNode (c : String) (v : ℤ) : List (String × ℤ) → Option ℤ → Node
  | [], Option.none => .IfStatement (.Reference c false) [.Literal v true] [] []
  | [], some w => .IfStatement (.Reference c false) [.Literal v true] [] [.Literal w true]
  | (c₁, v₁) :: rest, els =>
      .IfStatement (.Reference c false) [.Literal v true]
        [ifChainNode c₁ v₁ rest els] []

/-! ## Generic `Except` plumbing -/

theorem ok_bind {ε α β : Type} (a : α) (f : α → Except ε β) :
    ((Except.ok a : Except ε α) >>= f) = f a := rfl

theorem error_bind {ε α β : Type} (e : ε) (f : α → Except ε β) :
    ((Except.error e : Except ε α) >>= f) = .error e := rfl

theorem bind_ok_iff {ε α β : Type} {e : Except ε α} {f : α → Except ε β} {b : β} :
    (e >>= f) = .ok b ↔ ∃ a, e = .ok a ∧ f a = .ok b := by
  cases e with
  | error err => simp [error_bind]
  | ok a => simp [ok_bind]

theorem map_ok_iff {ε α β : Type} {e : Except ε α} {f : α → β} {b : β} :
    e.map f = .ok b ↔ ∃ a, e = .ok a ∧ f a = b := by
  cases e with
  | error err => simp [Except.map]
  | ok a => simp [Except.map]

/-! ## C1 -/

/-- C1: the claim asserts that rendering `(a + b) * c` emits parentheses around
`a + b` while also never parenthesizing a multiplicative node's left operand.
The code does the latter: the parsed node for `(a + b) * c` has the additive
node on the *left*, and its rendering is the unparenthesized `a + b * c`, which
regroups the arithmetic in the emitted text. -/
theorem claims_C1 :
    parseProgram "(a + b) * c;" = .ok (.Module [.ArithmeticOp
        (.ArithmeticOp (.Reference "a" false) .add (.Reference "b" false) false) .mul
        (.Reference "c" false) true])
    ∧ compileNode 99 (.ArithmeticOp
        (.ArithmeticOp (.Reference "a" false) .add (.Reference "b" false) false) .mul
        (.Reference "c" false) false)
        [("c", .int 3), ("b", .int 2), ("a", .int 1)] 0
      = .ok ("a + b * c", [("c", .int 3), ("b", .int 2), ("a", .int 1)]) :=
  ⟨rfl, rfl⟩

/-! ## C9 -/

/-- C9: the lexer records the first character of the source at line 1, column 1,
but the first character after a newline at column 2: `advance` resets the column
to 1 on consuming the newline and then increments it unconditionally.  On
`"a\nb"` the token for `b` carries column 2, not the column 1 the claim
states. -/
theorem claims_C9 :
    tokenize "a\nb" = .ok [⟨some .ID, .str "a", 1, 1⟩, ⟨some .ID, .str "b", 2, 2⟩] :=
  rfl

/-! ## C2 -/

/-- C2 counterexample: `a < b < c` as an if-condition parses without any error,
and the resulting condition is a comparison node whose left operand is itself a
comparison node — refuting both halves of the claim at this input. -/
theorem claims_C2_counterexample :
    parseProgram "if a < b < c \x7b\x7d" = .ok (.Module [.IfStatement
      (.CompOp (.CompOp (.Reference "a" false) .lt (.Reference "b" false)) .lt
        (.Reference "c" false)) [] [] []]) :=
  rfl

/-- `comparison_loop` never stops in front of a `<`/`>` token: chained
comparisons are absorbed into left-nested `CompOp` nodes, not rejected. -/
theorem comparison_loop_consumes (fuel : ℕ) :
    ∀ node toks n rest, comparison_loop fuel node toks = .ok (n, rest) →
      ∀ tok, rest.head? = some tok →
        ¬(tok.type = some TokenType.LT ∨ tok.type = some TokenType.GT) := by
  induction fuel with
  | zero =>
    intro node toks n rest h
    simp [comparison_loop] at h
  | succ fuel ih =>
    intro node toks n rest h tok htok
    match toks with
    | [] =>
      simp only [comparison_loop, Except.ok.injEq, Prod.mk.injEq] at h
      rw [← h.2] at htok
      simp at htok
    | tok₀ :: toks₀ =>
      simp only [comparison_loop] at h
      split at h
      · obtain ⟨⟨e₁, toks₁⟩, h₁, h⟩ := bind_ok_iff.mp h
        obtain ⟨⟨r, toks₂⟩, h₂, h⟩ := bind_ok_iff.mp h
        exact ih _ _ _ _ h tok htok
      · next hcond =>
        simp only [Except.ok.injEq, Prod.mk.injEq] at h
        rw [← h.2] at htok
        simp only [List.head?, Option.some.injEq] at htok
        subst htok
        have h₂ : ¬tok₀.type = some TokenType.GT ∧ ¬tok₀.type = some TokenType.LT := by
          simpa [not_or] using hcond
        rw [not_or]
        exact ⟨h₂.2, h₂.1⟩

/-- C2 (amended): the comparison grammar itself accepts chains — when
`comparison_expr` returns, every following `<`/`>` has been consumed into a
left-nested comparison — and a chained comparison in an if-condition parses
without error; in a `let` the chain is rejected, but by the separate
"Can't assign to comparison." check that rejects *any* bare comparison value,
not by a parse error about chaining. -/
theorem claims_C2 :
    (parseProgram "let x = a < b < c;" = .error .cantAssignComparison)
    ∧ (∀ fuel toks n rest, comparison_expr fuel toks = .ok (n, rest) →
        ∀ tok, rest.head? = some tok →
          ¬(tok.type = some TokenType.LT ∨ tok.type = some TokenType.GT)) := by
  refine ⟨rfl, ?_⟩
  intro fuel toks n rest h tok htok
  match fuel with
  | 0 => simp [comparison_expr] at h
  | fuel + 1 =>
    simp only [comparison_expr] at h
    obtain ⟨⟨e₁, toks₁⟩, h₁, h⟩ := bind_ok_iff.mp h
    exact comparison_loop_consumes fuel _ _ _ _ h tok htok

/-- Instance of C2's general clause at a concrete stream (`a < b` followed by a
semicolon): the leftover token after the comparison is not a comparison
operator. -/
theorem claims_C2_witness :
    ¬((⟨some TokenType.SEMICOLON, .str ";", 1, 6⟩ : Token).type = some TokenType.LT
      ∨ (⟨some TokenType.SEMICOLON, .str ";", 1, 6⟩ : Token).type = some TokenType.GT) :=
  claims_C2.2 9
    [⟨some .ID, .str "a", 1, 1⟩, ⟨some .LT, .str "<", 1, 3⟩,
     ⟨some .ID, .str "b", 1, 5⟩, ⟨some .SEMICOLON, .str ";", 1, 6⟩]
    (.CompOp (.Reference "a" false) .lt (.Reference "b" false))
    [⟨some .SEMICOLON, .str ";", 1, 6⟩] rfl _ rfl

/-! ## C3 -/

/-- C3 counterexample: `let x = 1 < 2;` does not produce an Assignment — the
parser raises "Can't assign to comparison." on any bare comparison value. -/
theorem claims_C3_counterexample :
    parseProgram "let x = 1 < 2;" = .error .cantAssignComparison :=
  rfl

/-- C3 (amended): an assignment whose right-hand side is a bare comparison is
rejected by `assignment`'s `isinstance(value, CompOp)` check, so a parsed
Assignment's value is never a comparison node (a comparison may appear in an
assignment only as the condition of a ternary suffix). -/
theorem claims_C3 :
    ∀ fuel toks node rest, assignment fuel toks = .ok (node, rest) →
      ∃ name value, node = .Assignment name value ∧ isCompNode value = false := by
  intro fuel toks node rest h
  match fuel with
  | 0 => simp [assignment] at h
  | fuel + 1 =>
    simp only [assignment] at h
    obtain ⟨⟨letTok, toks₁⟩, h₁, h⟩ := bind_ok_iff.mp h
    obtain ⟨⟨idTok, toks₂⟩, h₂, h⟩ := bind_ok_iff.mp h
    obtain ⟨⟨eqTok, toks₃⟩, h₃, h⟩ := bind_ok_iff.mp h
    obtain ⟨⟨value, toks₄⟩, h₄, h⟩ := bind_ok_iff.mp h
    split at h
    · split at h
      · obtain ⟨⟨value₁, toks₅⟩, h₅, h⟩ := bind_ok_iff.mp h
        split at h
        · exact absurd h (by simp)
        · next hcomp =>
          simp only [Except.ok.injEq, Prod.mk.injEq] at h
          exact ⟨_, _, h.1.symm, by simpa using hcomp⟩
      · simp only [ok_bind] at h
        split at h
        · exact absurd h (by simp)
        · next hcomp =>
          simp only [Except.ok.injEq, Prod.mk.injEq] at h
          exact ⟨_, _, h.1.symm, by simpa using hcomp⟩
    · simp only [ok_bind] at h
      split at h
      · exact absurd h (by simp)
      · next hcomp =>
        simp only [Except.ok.injEq, Prod.mk.injEq] at h
        exact ⟨_, _, h.1.symm, by simpa using hcomp⟩

/-- Instance of C3 at the concrete stream of `let x = 5` (followed by nothing):
the parsed assignment's value is not a comparison. -/
theorem claims_C3_witness :
    ∃ name value,
      (Node.Assignment "x" (.Literal 5 false)) = Node.Assignment name value
      ∧ isCompNode value = false :=
  claims_C3 9
    [⟨some .LET, .str "let", 1, 1⟩, ⟨some .ID, .str "x", 1, 5⟩,
     ⟨some .EQUAL, .str "=", 1, 7⟩, ⟨some .INT, .int 5, 1, 9⟩]
    (.Assignment "x" (.Literal 5 false)) [] rfl

/-! ## C8 -/

/-- C8 counterexample: with two elif clauses and an else, the outermost
Conditional's elif list has length 1 (not one entry per elif clause) and its
else block is empty (the else attaches to the innermost elif instead). -/
theorem claims_C8_counterexample :
    (parseProgram
        "if a \x7b 1; \x7d elif b \x7b 2; \x7d elif c \x7b 3; \x7d else \x7b 4; \x7d").map
      (fun m =>
        match m with
        | .Module [.IfStatement _ _ elifs els] => (elifs.length, els.length)
        | _ => (0, 0))
      = .ok (1, 0) ∧ ((1 : ℕ), (0 : ℕ)) ≠ (2, 1) :=
  ⟨rfl, by decide⟩

/-- Python `s * 1 = s`. -/
theorem pyStrMul_one (s : String) : pyStrMul s 1 = s := by
  cases s with
  | mk data => rfl

theorem tokOf_type (tt : TokenType) : (tokOf tt).type = some tt := rfl

theorem idTokOf_type (s : String) : (idTokOf s).type = some TokenType.ID := rfl

theorem intTokOf_type (n : ℤ) : (intTokOf n).type = some TokenType.INT := rfl

/-- With any sufficient fuel, an identifier condition followed by `\x7b` parses
to a bare `Reference`, consuming exactly the identifier token. -/
theorem cond_ref_parses (fuel : ℕ) (c : String) (rest : List Token) :
    comparison_expr (fuel + 4) (idTokOf c :: tokOf .L_BRACE :: rest)
      = .ok (.Reference c false, tokOf .L_BRACE :: rest) := by
  simp [comparison_expr, expr, mult, factor, eat, ok_bind, idTokOf, tokOf,
    mult_loop, expr_loop, comparison_loop, TokenValue.mulStr, pyStrMul_one]

/-- With any sufficient fuel, a block body `v; \x7d` parses under the
not-`\x7d` condition to one standalone literal statement, stopping at the
`\x7d` token. -/
theorem lit_stmt_parses (fuel : ℕ) (v : ℤ) (rest : List Token) :
    statements (fuel + 4) notRBrace
        (intTokOf v :: tokOf .SEMICOLON :: tokOf .R_BRACE :: rest)
      = .ok ([.Literal v true], tokOf .R_BRACE :: rest) := by
  simp [statements, expr, mult, factor, eat, ok_bind, intTokOf, tokOf, notRBrace,
    mult_loop, expr_loop, setStandalone, TokenValue.mulInt]

/-- The elif loop stops at the end of the stream. -/
theorem elif_nil_step (M : ℕ) : elif_loop (M + 1) [] = .ok ([], []) := by
  simp [elif_loop]

/-- The elif loop stops at an `else` lookahead without consuming it. -/
theorem elif_else_step (M : ℕ) (tok : Token) (ts : List Token)
    (h : tok.type = some TokenType.ELSE) :
    elif_loop (M + 1) (tok :: ts) = .ok ([], tok :: ts) := by
  simp [elif_loop, h]

/-- One iteration of the elif loop: at an `elif` lookahead it contributes
exactly the one node of the recursive `if_statement` call (which itself starts
at that `elif` token) and re-loops on that call's leftover stream. -/
theorem elif_cons_step (M : ℕ) (tok : Token) (ts t₁ t₂ : List Token)
    (n : Node) (ns : List Node)
    (h : tok.type = some TokenType.ELIF)
    (h₁ : if_statement M (tok :: ts) = .ok (n, t₁))
    (h₂ : elif_loop M t₁ = .ok (ns, t₂)) :
    elif_loop (M + 1) (tok :: ts) = .ok (n :: ns, t₂) := by
  simp [elif_loop, h, ok_bind, h₁, h₂]

/-- Composition law for `if_statement`, no-else shape: from the parses of the
condition, the block, and an elif loop that exhausts the stream, the whole
conditional parses with an empty else block. -/
theorem if_statement_comp (M : ℕ) (hd : Token) (ts ts₂ ts₄ : List Token)
    (cnd : Node) (blk es : List Node)
    (hhd : hd.type = some TokenType.IF ∨ hd.type = some TokenType.ELIF)
    (hc : comparison_expr M ts = .ok (cnd, tokOf .L_BRACE :: ts₂))
    (hs : statements M notRBrace ts₂ = .ok (blk, tokOf .R_BRACE :: ts₄))
    (he : elif_loop M ts₄ = .ok (es, [])) :
    if_statement (M + 1) (hd :: ts) = .ok (.IfStatement cnd blk es [], []) := by
  rcases hhd with h | h <;>
    simp [if_statement, eat, ok_bind, h, hc, hs, he, tokOf_type]

/-- Composition law for `if_statement`, else shape: if the elif loop leaves an
`else \x7b ... \x7d` suffix, that block is consumed and becomes this node's
own else block. -/
theorem if_statement_comp_else (M : ℕ) (hd : Token) (ts ts₂ ts₄ ts₈ : List Token)
    (cnd : Node) (blk els es : List Node)
    (hhd : hd.type = some TokenType.IF ∨ hd.type = some TokenType.ELIF)
    (hc : comparison_expr M ts = .ok (cnd, tokOf .L_BRACE :: ts₂))
    (hs : statements M notRBrace ts₂ = .ok (blk, tokOf .R_BRACE :: ts₄))
    (he : elif_loop M ts₄ = .ok (es, tokOf .ELSE :: tokOf .L_BRACE :: ts₈))
    (hs₂ : statements M notRBrace ts₈ = .ok (els, [tokOf .R_BRACE])) :
    if_statement (M + 1) (hd :: ts) = .ok (.IfStatement cnd blk es els, []) := by
  rcases hhd with h | h <;>
    simp [if_statement, eat, ok_bind, h, hc, hs, he, hs₂, tokOf_type]

/-- C8 general support: `if_statement` — entered at `if`, or at `elif` when
re-entered recursively from the elif loop — parses every canonical chain, of
any length, to the nested `ifChainNode` tree: the parent's elif list receives
exactly the one node of the recursive call, that node carries the whole
remaining chain, and the optional else block lands at the innermost level. -/
theorem if_chain_parses :
    ∀ (elifs : List (String × ℤ)) (els : Option ℤ) (c : String) (v : ℤ)
      (fuel : ℕ) (hd : Token),
      hd.type = some TokenType.IF ∨ hd.type = some TokenType.ELIF →
      if_statement (fuel + 8 + 8 * elifs.length)
          (hd :: condBlockToks c v ++ elifChainToks elifs els)
        = .ok (ifChainNode c v elifs els, []) := by
  intro elifs
  induction elifs with
  | nil =>
    intro els c v fuel hd hhd
    cases els with
    | none =>
      have h := if_statement_comp (fuel + 7) hd
        (idTokOf c :: tokOf .L_BRACE
          :: [intTokOf v, tokOf .SEMICOLON, tokOf .R_BRACE])
        [intTokOf v, tokOf .SEMICOLON, tokOf .R_BRACE] []
        (.Reference c false) [.Literal v true] [] hhd
        (cond_ref_parses (fuel + 3) c _) (lit_stmt_parses (fuel + 3) v [])
        (elif_nil_step (fuel + 6))
      simpa [condBlockToks, elifChainToks, ifChainNode] using h
    | some w =>
      have h := if_statement_comp_else (fuel + 7) hd
        (idTokOf c :: tokOf .L_BRACE :: intTokOf v :: tokOf .SEMICOLON
          :: tokOf .R_BRACE :: tokOf .ELSE :: tokOf .L_BRACE :: intTokOf w
          :: tokOf .SEMICOLON :: [tokOf .R_BRACE])
        (intTokOf v :: tokOf .SEMICOLON :: tokOf .R_BRACE :: tokOf .ELSE
          :: tokOf .L_BRACE :: intTokOf w :: tokOf .SEMICOLON :: [tokOf .R_BRACE])
        (tokOf .ELSE :: tokOf .L_BRACE :: intTokOf w :: tokOf .SEMICOLON
          :: [tokOf .R_BRACE])
        (intTokOf w :: tokOf .SEMICOLON :: [tokOf .R_BRACE])
        (.Reference c false) [.Literal v true] [.Literal w true] [] hhd
        (cond_ref_parses (fuel + 3) c _) (lit_stmt_parses (fuel + 3) v _)
        (elif_else_step (fuel + 6) (tokOf .ELSE) _ rfl)
        (lit_stmt_parses (fuel + 3) w [])
      simpa [condBlockToks, elifChainToks, ifChainNode] using h
  | cons head rest ih =>
    obtain ⟨c₁, v₁⟩ := head
    intro els c v fuel hd hhd
    have hlen : fuel + 8 + 8 * List.length ((c₁, v₁) :: rest)
        = (fuel + 8 * List.length rest + 15) + 1 := by
      simp [List.length_cons]; ring
    rw [hlen]
    have hinner := ih els c₁ v₁ (fuel + 6) (tokOf .ELIF) (Or.inr rfl)
    have h₁ : fuel + 6 + 8 + 8 * List.length rest
        = fuel + 8 * List.length rest + 14 := by ring
    rw [h₁] at hinner
    have hnil : elif_loop (fuel + 8 * List.length rest + 14) [] = .ok ([], []) :=
      elif_nil_step (fuel + 8 * List.length rest + 13)
    have hloop := elif_cons_step (fuel + 8 * List.length rest + 14) (tokOf .ELIF)
      (condBlockToks c₁ v₁ ++ elifChainToks rest els) [] []
      (ifChainNode c₁ v₁ rest els) [] rfl hinner hnil
    have h₄ : fuel + 8 * List.length rest + 14 + 1
        = fuel + 8 * List.length rest + 15 := by ring
    rw [h₄] at hloop
    have hcond := cond_ref_parses (fuel + 8 * List.length rest + 11) c
      (intTokOf v :: tokOf .SEMICOLON :: tokOf .R_BRACE :: tokOf .ELIF
        :: condBlockToks c₁ v₁ ++ elifChainToks rest els)
    have hstats := lit_stmt_parses (fuel + 8 * List.length rest + 11) v
      (tokOf .ELIF :: condBlockToks c₁ v₁ ++ elifChainToks rest els)
    have h₃ : fuel + 8 * List.length rest + 11 + 4
        = fuel + 8 * List.length rest + 15 := by ring
    rw [h₃] at hcond hstats
    have h := if_statement_comp (fuel + 8 * List.length rest + 15) hd
      (idTokOf c :: tokOf .L_BRACE :: intTokOf v :: tokOf .SEMICOLON
        :: tokOf .R_BRACE :: tokOf .ELIF :: condBlockToks c₁ v₁
        ++ elifChainToks rest els)
      (intTokOf v :: tokOf .SEMICOLON :: tokOf .R_BRACE :: tokOf .ELIF
        :: condBlockToks c₁ v₁ ++ elifChainToks rest els)
      (tokOf .ELIF :: condBlockToks c₁ v₁ ++ elifChainToks rest els)
      (.Reference c false) [.Literal v true] [ifChainNode c₁ v₁ rest els] hhd
      hcond hstats hloop
    simpa [condBlockToks, elifChainToks, ifChainNode] using h

/-- C8 (amended): the recursive elif parse gives each chain level at most one
elif entry — the parent's elif list is exactly the one node of the recursive
call, which carries the whole remaining chain (one nesting level per clause),
and a trailing else block attaches to the innermost Conditional.  Proven for
every canonical chain (any number of elif clauses, any identifier conditions,
any literal bodies, with or without a trailing else), and instantiated through
the full lexer-to-parser pipeline on the spec-shaped concrete program. -/
theorem claims_C8 :
    (∀ (elifs : List (String × ℤ)) (els : Option ℤ) (c : String) (v : ℤ)
      (fuel : ℕ),
      if_statement (fuel + 8 + 8 * elifs.length) (ifChainToks c v elifs els)
        = .ok (ifChainNode c v elifs els, []))
    ∧ parseProgram
        "if a \x7b 1; \x7d elif b \x7b 2; \x7d elif c \x7b 3; \x7d else \x7b 4; \x7d"
      = .ok (.Module [ifChainNode "a" 1 [("b", 2), ("c", 3)] (some 4)]) := by
  refine ⟨fun elifs els c v fuel => ?_, rfl⟩
  exact if_chain_parses elifs els c v fuel (tokOf .IF) (Or.inl rfl)

/-! ## C4 -/

/-- C4: `Repeat.eval` evaluates the bound expression exactly once, at entry —
the iteration count is fixed by the bound's value in the entry environment
before any iteration runs — and then executes the block that many times in
order; the spec's own test (`let n = 3; repeat n { let n = n - 1; ... }`)
performs exactly 3 iterations even though the block rebinds `n`. -/
theorem claims_C4 :
    (∀ fuel times blk env v env₁ o₁ n,
      evalNode fuel times env = .ok (v, env₁, o₁) →
      repCount v = .ok n →
      evalNode (fuel + 1) (.Repeat times blk) env =
        (evalRepeatN fuel n blk env₁ >>= fun p => .ok (.none, p.1, o₁ ++ p.2)))
    ∧ (∀ fuel n blk env,
      evalRepeatN (fuel + 1) (n + 1) blk env =
        (evalSeq fuel blk env >>= fun p =>
          evalRepeatN fuel n blk p.1 >>= fun q => .ok (q.1, p.2 ++ q.2)))
    ∧ (evalProgram "let n = 3; repeat n \x7b let n = n - 1; n; \x7d").map
        (fun p => (envGet p.1 "n", p.2))
      = .ok (some (.int 0), [.int 2, .int 1, .int 0]) := by
  refine ⟨?_, ?_, rfl⟩
  · intro fuel times blk env v env₁ o₁ n h₁ h₂
    simp only [evalNode, h₁, ok_bind, h₂]
  · intro fuel n blk env
    simp only [evalRepeatN]

/-- Instance of C4 at a concrete repeat node whose bound is the literal 3. -/
theorem claims_C4_witness :
    evalNode 2 (.Repeat (.Literal 3 false) []) [] =
      (evalRepeatN 1 3 [] [] >>= fun p => .ok (.none, p.1, [] ++ p.2)) :=
  claims_C4.1 1 (.Literal 3 false) [] [] (.int 3) [] [] 3 rfl rfl

/-! ## C5 -/

/-- C5: `Ternary.eval` evaluates the condition, then evaluates and returns
exactly the branch the condition's truthiness selects; the untaken branch is
never evaluated, so an always-false condition with a truthy branch naming an
undefined identifier evaluates without an unresolved-identifier error. -/
theorem claims_C5 :
    (∀ fuel c t f env v env₁ o₁,
      evalNode fuel c env = .ok (v, env₁, o₁) →
      (truthy v = true →
        evalNode (fuel + 1) (.Ternary c t f) env =
          (evalNode fuel t env₁ >>= fun p => .ok (p.1, p.2.1, o₁ ++ p.2.2)))
      ∧ (truthy v = false →
        evalNode (fuel + 1) (.Ternary c t f) env =
          (evalNode fuel f env₁ >>= fun p => .ok (p.1, p.2.1, o₁ ++ p.2.2))))
    ∧ (evalProgram "let x = 2 < 1 ? ghost : 5;").map (fun p => envGet p.1 "x")
      = .ok (some (.int 5)) := by
  refine ⟨?_, rfl⟩
  intro fuel c t f env v env₁ o₁ h₁
  constructor
  · intro hv
    simp only [evalNode, h₁, ok_bind, hv, if_true]
  · intro hv
    simp only [evalNode, h₁, ok_bind, hv, Bool.false_eq_true, if_false]

/-- Instance of C5 at a falsy condition whose truthy branch references an
undefined name: the result is the falsy branch's evaluation. -/
theorem claims_C5_witness :
    evalNode 2 (.Ternary (.Literal 0 false) (.Reference "ghost" false) (.Literal 5 false)) [] =
      (evalNode 1 (.Literal 5 false) [] >>= fun p => .ok (p.1, p.2.1, [] ++ p.2.2)) :=
  (claims_C5.1 1 (.Literal 0 false) (.Reference "ghost" false) (.Literal 5 false) []
    (.int 0) [] [] rfl).2 rfl

/-! ## C6 -/

/-- C6: for a `Reference` whose name is absent, evaluation and rendering both
fail with the same unresolved-identifier error (rendering producing no text);
when the name is bound (to an actual value — the language can only bind
non-`None` values), neither operation fails. -/
theorem claims_C6 :
    ∀ name st env indent fuel,
      (envGet env name = Option.none →
        evalNode (fuel + 1) (.Reference name st) env = .error (.unresolvedIdentifier name)
        ∧ compileNode (fuel + 1) (.Reference name st) env indent
            = .error (.unresolvedIdentifier name))
      ∧ (∀ v, envGet env name = some v → v ≠ Value.none →
        (∃ out, evalNode (fuel + 1) (.Reference name st) env = .ok (v, env, out))
        ∧ (∃ s, compileNode (fuel + 1) (.Reference name st) env indent = .ok (s, env))) := by
  intro name st env indent fuel
  constructor
  · intro h
    have hg : get_or_raise env name = .error (.unresolvedIdentifier name) := by
      simp [get_or_raise, h]
    exact ⟨by simp [evalNode, hg, error_bind], by simp [compileNode, hg, error_bind]⟩
  · intro v hv hne
    have hg : get_or_raise env name = .ok v := by
      cases v with
      | int n => simp [get_or_raise, hv]
      | float q => simp [get_or_raise, hv]
      | bool b => simp [get_or_raise, hv]
      | none => exact absurd rfl hne
    constructor
    · exact ⟨(if st = true then [v] else []), by simp [evalNode, hg, ok_bind]⟩
    · cases st
      · exact ⟨name, by simp [compileNode, hg, ok_bind]⟩
      · exact ⟨spaces indent ++ "printf(\"%i\\n\", " ++ name ++ ");",
          by simp [compileNode, hg, ok_bind]⟩

/-- Instance of C6: an unbound reference errors under evaluation, a bound one
succeeds. -/
theorem claims_C6_witness :
    evalNode 1 (.Reference "x" false) [] = .error (.unresolvedIdentifier "x")
    ∧ ∃ out, evalNode 1 (.Reference "x" false) [("x", Value.int 1)]
        = .ok (.int 1, [("x", Value.int 1)], out) :=
  ⟨((claims_C6 "x" false [] 0 0).1 rfl).1,
   (((claims_C6 "x" false [("x", Value.int 1)] 0 0).2 (.int 1) rfl (by decide)).1)⟩

/-! ## C7 -/

/-- C7 counterexample: at `7 / 2`-style inputs with a zero divisor the claim's
universe ("both operands evaluate without error") is inhabited and yet no
quotient is produced: `7 / 0` raises `ZeroDivisionError` although both operands
evaluate fine. -/
theorem claims_C7_counterexample :
    evalNode 2 (.ArithmeticOp (.Literal 7 false) .div (.Literal 0 false) false) []
      = .error .zeroDivisionError
    ∧ evalNode 1 (.Literal 7 false) [] = .ok (.int 7, [], [])
    ∧ evalNode 1 (.Literal 0 false) [] = .ok (.int 0, [], []) :=
  ⟨rfl, rfl, rfl⟩

/-- C7 (amended): when both operands evaluate without error and the divisor is
nonzero, `/` yields the exact (non-truncating) rational quotient of the operand
values whether or not they divide evenly — in particular `7 / 2` is the float
3.5, not 3; a zero divisor instead raises `ZeroDivisionError`. -/
theorem claims_C7 :
    (∀ fuel l r st env a env₁ o₁ b env₂ o₂ x y,
      evalNode fuel l env = .ok (a, env₁, o₁) →
      evalNode fuel r env₁ = .ok (b, env₂, o₂) →
      a.toQ = some x → b.toQ = some y → b.isZero = false →
      evalNode (fuel + 1) (.ArithmeticOp l .div r st) env =
        .ok (.float (x / y), env₂, o₁ ++ o₂ ++ if st then [Value.float (x / y)] else []))
    ∧ evalNode 2 (.ArithmeticOp (.Literal 7 false) .div (.Literal 2 false) false) []
        = .ok (.float (((7 : ℤ) : ℚ) / ((2 : ℤ) : ℚ)), [], [])
    ∧ ((7 : ℤ) : ℚ) / ((2 : ℤ) : ℚ) = 3.5
    ∧ ((7 : ℤ) : ℚ) / ((2 : ℤ) : ℚ) ≠ 3 := by
  refine ⟨?_, rfl, by norm_num, by norm_num⟩
  intro fuel l r st env a env₁ o₁ b env₂ o₂ x y h₁ h₂ hx hy hz
  have hA : applyArith .div a b = .ok (.float (x / y)) := by
    simp only [applyArith, hx, hy, hz, Bool.false_eq_true, if_false]
  simp only [evalNode, h₁, ok_bind, h₂, hA]

/-- Instance of C7 at `9 / 4`: the exact quotient, not the truncated 2. -/
theorem claims_C7_witness :
    evalNode 2 (.ArithmeticOp (.Literal 9 false) .div (.Literal 4 false) false) []
      = .ok (.float (((9 : ℤ) : ℚ) / ((4 : ℤ) : ℚ)), [], []) := by
  simpa using claims_C7.1 1 (.Literal 9 false) (.Literal 4 false) false []
    (.int 9) [] [] (.int 4) [] [] _ _ rfl rfl rfl rfl rfl

/-! ## C10: supporting lemmas

Chain: (a) `- <id>` parses to `Reference ""`; (b) the lexer's `ID` tokens carry
nonempty names; (c) the parser then only builds assignments with nonempty
names; (d) evaluation and rendering preserve "no binding for the empty name";
(e) under such environments, `Reference ""` always fails to resolve. -/

theorem stringMk_cons_ne_empty (c : Char) (l : List Char) : String.mk (c :: l) ≠ "" :=
  fun h => by simpa using congrArg String.data h

theorem tokenTypeStr_ne_empty : ∀ tt : TokenType, tt.str ≠ "" := by
  intro tt
  cases tt <;> decide

theorem start_chars_subset : ∀ c, c ∈ ID_VALID_START_CHARS → c ∈ ID_VALID_CHARS := by
  have h : ID_VALID_CHARS = ID_VALID_START_CHARS ++ "0123456789".toList := by decide
  intro c hc
  rw [h]
  exact List.mem_append_left _ hc

theorem get_chars_fst_cons (cond : Char → Bool) (fuel : ℕ) (st : LexState)
    (c : Char) (rs : List Char) (hrest : st.rest = c :: rs) (hc : cond c = true) :
    (get_chars cond (fuel + 1) st).1 = c :: (get_chars cond fuel (advance st)).1 := by
  simp only [get_chars, hrest, hc, if_true]

/-- (b): every `ID` token an accepted run of the lexer loop emits carries a
nonempty string. -/
theorem tokenizeLoop_good : ∀ fuel st toks,
    tokenizeLoop fuel st = .ok toks → GoodToks toks := by
  intro fuel
  induction fuel with
  | zero => intro st toks h; simp [tokenizeLoop] at h
  | succ fuel ih =>
    intro st toks h
    rcases hrest : st.rest with _ | ⟨c, rs⟩ <;> simp only [tokenizeLoop, hrest] at h
    · simp only [Except.ok.injEq] at h
      subst h
      intro tok htok
      simp at htok
    · by_cases hdig : c.isDigit = true
      · rw [if_pos hdig] at h
        obtain ⟨toks₁, hloop, rfl⟩ := map_ok_iff.mp h
        intro tok htok
        rcases List.mem_cons.mp htok with rfl | hmem
        · intro hid; simp at hid
        · exact ih _ toks₁ hloop tok hmem
      · rw [if_neg hdig] at h
        by_cases hstart : c ∈ ID_VALID_START_CHARS
        · rw [if_pos hstart] at h
          obtain ⟨toks₁, hloop, rfl⟩ := map_ok_iff.mp h
          intro tok htok
          rcases List.mem_cons.mp htok with rfl | hmem
          · intro _
            refine ⟨_, rfl, ?_⟩
            match fuel, hloop with
            | fuel + 1, hloop =>
              have h₁ := get_chars_fst_cons (fun ch => ch ∈ ID_VALID_CHARS) fuel st c rs hrest
                (by simpa using start_chars_subset c hstart)
              rw [h₁]
              exact stringMk_cons_ne_empty _ _
          · exact ih _ toks₁ hloop tok hmem
        · rw [if_neg hstart] at h
          rcases hchar : TokenType.getChar c with _ | ttype <;> rw [hchar] at h
          · simp only at h
            by_cases hsp : pyIsSpace c = true
            · rw [if_pos hsp] at h
              exact ih _ _ h
            · rw [if_neg hsp] at h
              by_cases hcm : c = '#'
              · rw [if_pos hcm] at h
                exact ih _ _ h
              · rw [if_neg hcm] at h
                simp at h
          · simp only at h
            obtain ⟨toks₁, hloop, rfl⟩ := map_ok_iff.mp h
            intro tok htok
            rcases List.mem_cons.mp htok with rfl | hmem
            · intro _
              exact ⟨ttype.str, rfl, tokenTypeStr_ne_empty ttype⟩
            · exact ih _ toks₁ hloop tok hmem

theorem eat_ok {tts : List TokenType} {toks : List Token} {tok : Token}
    {rest : List Token} (h : eat tts toks = .ok (tok, rest)) :
    toks = tok :: rest ∧ ∃ tt, tok.type = some tt ∧ tt ∈ tts := by
  match toks with
  | [] => simp [eat] at h
  | tok₀ :: rest₀ =>
    simp only [eat] at h
    rcases htt : tok₀.type with _ | tt <;> rw [htt] at h <;> simp only at h
    · simp at h
    · by_cases hmem : tt ∈ tts
      · rw [if_pos hmem] at h
        simp only [Except.ok.injEq, Prod.mk.injEq] at h
        obtain ⟨rfl, rfl⟩ := h
        exact ⟨rfl, tt, htt, hmem⟩
      · rw [if_neg hmem] at h
        simp at h

theorem eat_good {tts : List TokenType} {toks : List Token} {tok : Token}
    {rest : List Token} (h : eat tts toks = .ok (tok, rest)) (hg : GoodToks toks) :
    GoodTok tok ∧ GoodToks rest := by
  obtain ⟨heq, _⟩ := eat_ok h
  subst heq
  exact ⟨hg tok (by simp), fun t ht => hg t (by simp [ht])⟩

theorem setStandalone_noEmpty {n : Node} (h : NoEmptyAssign n) :
    NoEmptyAssign (setStandalone n) := by
  cases h with
  | mod hs => exact .mod hs
  | lit => exact .lit
  | ref => exact .ref
  | arith hl hr => exact .arith hl hr
  | comp hl hr => exact .comp hl hr
  | assign hn hv => exact .assign hn hv
  | tern hc ht hf => exact .tern hc ht hf
  | ifs hc hb he hel => exact .ifs hc hb he hel
  | rep ht hb => exact .rep ht hb



/-- (c): every parse function, fed tokens whose `ID` payloads are nonempty,
returns nodes in which every `Assignment` binds a nonempty name (and a leftover
stream of the same tokens).  One conjunct per parser function. -/
theorem parser_invariant : ∀ fuel : ℕ,
    (∀ cond toks nodes rest, statements fuel cond toks = .ok (nodes, rest) →
      GoodToks toks → (∀ n ∈ nodes, NoEmptyAssign n) ∧ GoodToks rest)
    ∧ (∀ toks node rest, repeat_stmt fuel toks = .ok (node, rest) →
      GoodToks toks → NoEmptyAssign node ∧ GoodToks rest)
    ∧ (∀ cnd toks node rest, ternary fuel cnd toks = .ok (node, rest) →
      GoodToks toks → NoEmptyAssign cnd → NoEmptyAssign node ∧ GoodToks rest)
    ∧ (∀ toks node rest, assignment fuel toks = .ok (node, rest) →
      GoodToks toks → NoEmptyAssign node ∧ GoodToks rest)
    ∧ (∀ toks node rest, if_statement fuel toks = .ok (node, rest) →
      GoodToks toks → NoEmptyAssign node ∧ GoodToks rest)
    ∧ (∀ toks nodes rest, elif_loop fuel toks = .ok (nodes, rest) →
      GoodToks toks → (∀ n ∈ nodes, NoEmptyAssign n) ∧ GoodToks rest)
    ∧ (∀ toks node rest, factor fuel toks = .ok (node, rest) →
      GoodToks toks → NoEmptyAssign node ∧ GoodToks rest)
    ∧ (∀ toks node rest, mult fuel toks = .ok (node, rest) →
      GoodToks toks → NoEmptyAssign node ∧ GoodToks rest)
    ∧ (∀ node₀ toks node rest, mult_loop fuel node₀ toks = .ok (node, rest) →
      GoodToks toks → NoEmptyAssign node₀ → NoEmptyAssign node ∧ GoodToks rest)
    ∧ (∀ toks node rest, expr fuel toks = .ok (node, rest) →
      GoodToks toks → NoEmptyAssign node ∧ GoodToks rest)
    ∧ (∀ node₀ toks node rest, expr_loop fuel node₀ toks = .ok (node, rest) →
      GoodToks toks → NoEmptyAssign node₀ → NoEmptyAssign node ∧ GoodToks rest)
    ∧ (∀ toks node rest, comparison_expr fuel toks = .ok (node, rest) →
      GoodToks toks → NoEmptyAssign node ∧ GoodToks rest)
    ∧ (∀ node₀ toks node rest, comparison_loop fuel node₀ toks = .ok (node, rest) →
      GoodToks toks → NoEmptyAssign node₀ → NoEmptyAssign node ∧ GoodToks rest) := by
  intro fuel
  induction fuel with
  | zero =>
    refine ⟨?_, ?_, ?_, ?_, ?_, ?_, ?_, ?_, ?_, ?_, ?_, ?_, ?_⟩ <;>
      (intros
       simp_all [statements, repeat_stmt, ternary, assignment, if_statement, elif_loop,
         factor, mult, mult_loop, expr, expr_loop, comparison_expr, comparison_loop])
  | succ fuel ih =>
    obtain ⟨ihStatements, ihRepeat, ihTernary, ihAssignment, ihIf, ihElif, ihFactor,
      ihMult, ihMultLoop, ihExpr, ihExprLoop, ihCompExpr, ihCompLoop⟩ := ih
    refine ⟨?_, ?_, ?_, ?_, ?_, ?_, ?_, ?_, ?_, ?_, ?_, ?_, ?_⟩
    -- statements
    · intro cond toks nodes rest h hg
      match toks with
      | [] =>
        simp only [statements, Except.ok.injEq, Prod.mk.injEq] at h
        obtain ⟨rfl, rfl⟩ := h
        exact ⟨by simp, by intro t ht; simp at ht⟩
      | tok :: toks₀ =>
        simp only [statements] at h
        by_cases hcond : cond tok = true
        · rw [if_pos hcond] at h
          rcases htt : tok.type with _ | tt <;> rw [htt] at h <;> (try simp only at h)
          · simp at h
          · cases tt
            · -- LET
              simp only at h
              obtain ⟨⟨node, toks₁⟩, hasg, h⟩ := bind_ok_iff.mp h
              obtain ⟨hne, hg₁⟩ := ihAssignment _ _ _ hasg hg
              obtain ⟨⟨stok, toks₂⟩, heat, h⟩ := bind_ok_iff.mp h
              have hg₂ := (eat_good heat hg₁).2
              obtain ⟨⟨nodes₁, toks₃⟩, hstmts, h⟩ := bind_ok_iff.mp h
              obtain ⟨hns, hg₃⟩ := ihStatements _ _ _ _ hstmts hg₂
              simp only [Except.ok.injEq, Prod.mk.injEq] at h
              obtain ⟨rfl, rfl⟩ := h
              refine ⟨?_, hg₃⟩
              intro n hn
              rcases List.mem_cons.mp hn with rfl | hm
              · exact hne
              · exact hns n hm
            · -- IF
              simp only at h
              obtain ⟨⟨node, toks₁⟩, hif, h⟩ := bind_ok_iff.mp h
              obtain ⟨hne, hg₁⟩ := ihIf _ _ _ hif hg
              obtain ⟨⟨nodes₁, toks₂⟩, hstmts, h⟩ := bind_ok_iff.mp h
              obtain ⟨hns, hg₂⟩ := ihStatements _ _ _ _ hstmts hg₁
              simp only [Except.ok.injEq, Prod.mk.injEq] at h
              obtain ⟨rfl, rfl⟩ := h
              refine ⟨?_, hg₂⟩
              intro n hn
              rcases List.mem_cons.mp hn with rfl | hm
              · exact hne
              · exact hns n hm
            · simp at h
            · simp at h
            · -- ID
              simp only at h
              obtain ⟨⟨node, toks₁⟩, hexpr, h⟩ := bind_ok_iff.mp h
              obtain ⟨hne, hg₁⟩ := ihExpr _ _ _ hexpr hg
              obtain ⟨⟨stok, toks₂⟩, heat, h⟩ := bind_ok_iff.mp h
              have hg₂ := (eat_good heat hg₁).2
              obtain ⟨⟨nodes₁, toks₃⟩, hstmts, h⟩ := bind_ok_iff.mp h
              obtain ⟨hns, hg₃⟩ := ihStatements _ _ _ _ hstmts hg₂
              simp only [Except.ok.injEq, Prod.mk.injEq] at h
              obtain ⟨rfl, rfl⟩ := h
              refine ⟨?_, hg₃⟩
              intro n hn
              rcases List.mem_cons.mp hn with rfl | hm
              · exact setStandalone_noEmpty hne
              · exact hns n hm
            · simp at h
            · -- INT
              simp only at h
              obtain ⟨⟨node, toks₁⟩, hexpr, h⟩ := bind_ok_iff.mp h
              obtain ⟨hne, hg₁⟩ := ihExpr _ _ _ hexpr hg
              obtain ⟨⟨stok, toks₂⟩, heat, h⟩ := bind_ok_iff.mp h
              have hg₂ := (eat_good heat hg₁).2
              obtain ⟨⟨nodes₁, toks₃⟩, hstmts, h⟩ := bind_ok_iff.mp h
              obtain ⟨hns, hg₃⟩ := ihStatements _ _ _ _ hstmts hg₂
              simp only [Except.ok.injEq, Prod.mk.injEq] at h
              obtain ⟨rfl, rfl⟩ := h
              refine ⟨?_, hg₃⟩
              intro n hn
              rcases List.mem_cons.mp hn with rfl | hm
              · exact setStandalone_noEmpty hne
              · exact hns n hm
            · -- REPEAT
              simp only at h
              obtain ⟨⟨node, toks₁⟩, hrep, h⟩ := bind_ok_iff.mp h
              obtain ⟨hne, hg₁⟩ := ihRepeat _ _ _ hrep hg
              obtain ⟨⟨nodes₁, toks₂⟩, hstmts, h⟩ := bind_ok_iff.mp h
              obtain ⟨hns, hg₂⟩ := ihStatements _ _ _ _ hstmts hg₁
              simp only [Except.ok.injEq, Prod.mk.injEq] at h
              obtain ⟨rfl, rfl⟩ := h
              refine ⟨?_, hg₂⟩
              intro n hn
              rcases List.mem_cons.mp hn with rfl | hm
              · exact hne
              · exact hns n hm
            · simp at h
            · simp at h
            · -- L_PAREN
              simp only at h
              obtain ⟨⟨node, toks₁⟩, hexpr, h⟩ := bind_ok_iff.mp h
              obtain ⟨hne, hg₁⟩ := ihExpr _ _ _ hexpr hg
              obtain ⟨⟨stok, toks₂⟩, heat, h⟩ := bind_ok_iff.mp h
              have hg₂ := (eat_good heat hg₁).2
              obtain ⟨⟨nodes₁, toks₃⟩, hstmts, h⟩ := bind_ok_iff.mp h
              obtain ⟨hns, hg₃⟩ := ihStatements _ _ _ _ hstmts hg₂
              simp only [Except.ok.injEq, Prod.mk.injEq] at h
              obtain ⟨rfl, rfl⟩ := h
              refine ⟨?_, hg₃⟩
              intro n hn
              rcases List.mem_cons.mp hn with rfl | hm
              · exact setStandalone_noEmpty hne
              · exact hns n hm
            all_goals simp at h
        · rw [if_neg hcond] at h
          simp only [Except.ok.injEq, Prod.mk.injEq] at h
          obtain ⟨rfl, rfl⟩ := h
          exact ⟨by simp, hg⟩
    -- repeat_stmt
    · intro toks node rest h hg
      simp only [repeat_stmt] at h
      obtain ⟨⟨rtok, toks₁⟩, heatR, h⟩ := bind_ok_iff.mp h
      have hg₁ := (eat_good heatR hg).2
      obtain ⟨⟨times, toks₂⟩, hexpr, h⟩ := bind_ok_iff.mp h
      obtain ⟨hnt, hg₂⟩ := ihExpr _ _ _ hexpr hg₁
      obtain ⟨⟨btok, toks₃⟩, heatB, h⟩ := bind_ok_iff.mp h
      have hg₃ := (eat_good heatB hg₂).2
      obtain ⟨⟨blk, toks₄⟩, hstmts, h⟩ := bind_ok_iff.mp h
      obtain ⟨hnb, hg₄⟩ := ihStatements _ _ _ _ hstmts hg₃
      obtain ⟨⟨ctok, toks₅⟩, heatC, h⟩ := bind_ok_iff.mp h
      have hg₅ := (eat_good heatC hg₄).2
      simp only [Except.ok.injEq, Prod.mk.injEq] at h
      obtain ⟨rfl, rfl⟩ := h
      exact ⟨.rep hnt hnb, hg₅⟩
    -- ternary
    · intro cnd toks node rest h hg hcnd
      simp only [ternary] at h
      obtain ⟨⟨ttok, toks₁⟩, heatT, h⟩ := bind_ok_iff.mp h
      have hg₁ := (eat_good heatT hg).2
      obtain ⟨⟨tbr, toks₂⟩, hexprT, h⟩ := bind_ok_iff.mp h
      obtain ⟨hnt, hg₂⟩ := ihExpr _ _ _ hexprT hg₁
      obtain ⟨⟨ctok, toks₃⟩, heatC, h⟩ := bind_ok_iff.mp h
      have hg₃ := (eat_good heatC hg₂).2
      obtain ⟨⟨fbr, toks₄⟩, hexprF, h⟩ := bind_ok_iff.mp h
      obtain ⟨hnf, hg₄⟩ := ihExpr _ _ _ hexprF hg₃
      simp only [Except.ok.injEq, Prod.mk.injEq] at h
      obtain ⟨rfl, rfl⟩ := h
      exact ⟨.tern hcnd hnt hnf, hg₄⟩
    -- assignment
    · intro toks node rest h hg
      simp only [assignment] at h
      obtain ⟨⟨ltok, toks₁⟩, heatL, h⟩ := bind_ok_iff.mp h
      have hg₁ := (eat_good heatL hg).2
      obtain ⟨⟨idTok, toks₂⟩, heatI, h⟩ := bind_ok_iff.mp h
      obtain ⟨hgid, hg₂⟩ := eat_good heatI hg₁
      have hname : idTok.value.asName ≠ "" := by
        obtain ⟨_, tt, htt, hmem⟩ := eat_ok heatI
        simp only [List.mem_singleton] at hmem
        subst hmem
        obtain ⟨s, hv, hs⟩ := hgid htt
        simp [TokenValue.asName, hv, hs]
      obtain ⟨⟨etok, toks₃⟩, heatE, h⟩ := bind_ok_iff.mp h
      have hg₃ := (eat_good heatE hg₂).2
      obtain ⟨⟨value, toks₄⟩, hcomp, h⟩ := bind_ok_iff.mp h
      obtain ⟨hnv, hg₄⟩ := ihCompExpr _ _ _ hcomp hg₃
      split at h
      · split at h
        · obtain ⟨⟨value₁, toks₅⟩, htern, h⟩ := bind_ok_iff.mp h
          obtain ⟨hnv₁, hg₅⟩ := ihTernary _ _ _ _ htern hg₄ hnv
          split at h
          · exact absurd h (by simp)
          · simp only [Except.ok.injEq, Prod.mk.injEq] at h
            obtain ⟨rfl, rfl⟩ := h
            exact ⟨.assign hname hnv₁, hg₅⟩
        · simp only [ok_bind] at h
          split at h
          · exact absurd h (by simp)
          · simp only [Except.ok.injEq, Prod.mk.injEq] at h
            obtain ⟨rfl, rfl⟩ := h
            exact ⟨.assign hname hnv, hg₄⟩
      · simp only [ok_bind] at h
        split at h
        · exact absurd h (by simp)
        · simp only [Except.ok.injEq, Prod.mk.injEq] at h
          obtain ⟨rfl, rfl⟩ := h
          exact ⟨.assign hname hnv, hg₄⟩
    -- if_statement
    · intro toks node rest h hg
      simp only [if_statement] at h
      obtain ⟨⟨itok, toks₁⟩, heatI, h⟩ := bind_ok_iff.mp h
      have hg₁ := (eat_good heatI hg).2
      obtain ⟨⟨condition, toks₂⟩, hcomp, h⟩ := bind_ok_iff.mp h
      obtain ⟨hnc, hg₂⟩ := ihCompExpr _ _ _ hcomp hg₁
      obtain ⟨⟨btok, toks₃⟩, heatB, h⟩ := bind_ok_iff.mp h
      have hg₃ := (eat_good heatB hg₂).2
      obtain ⟨⟨stats, toks₄⟩, hstmts, h⟩ := bind_ok_iff.mp h
      obtain ⟨hns, hg₄⟩ := ihStatements _ _ _ _ hstmts hg₃
      obtain ⟨⟨ctok, toks₅⟩, heatC, h⟩ := bind_ok_iff.mp h
      have hg₅ := (eat_good heatC hg₄).2
      obtain ⟨⟨elifs, toks₆⟩, helif, h⟩ := bind_ok_iff.mp h
      obtain ⟨hnel, hg₆⟩ := ihElif _ _ _ helif hg₅
      split at h
      · split at h
        · obtain ⟨⟨etok, toks₇⟩, heatE, h⟩ := bind_ok_iff.mp h
          have hg₇ := (eat_good heatE hg₆).2
          obtain ⟨⟨btok₂, toks₈⟩, heatB₂, h⟩ := bind_ok_iff.mp h
          have hg₈ := (eat_good heatB₂ hg₇).2
          obtain ⟨⟨elseBlk, toks₉⟩, hstmts₂, h⟩ := bind_ok_iff.mp h
          obtain ⟨hnse, hg₉⟩ := ihStatements _ _ _ _ hstmts₂ hg₈
          obtain ⟨⟨ctok₂, toks₁₀⟩, heatC₂, h⟩ := bind_ok_iff.mp h
          have hg₁₀ := (eat_good heatC₂ hg₉).2
          simp only [Except.ok.injEq, Prod.mk.injEq] at h
          obtain ⟨rfl, rfl⟩ := h
          exact ⟨.ifs hnc hns hnel hnse, hg₁₀⟩
        · simp only [Except.ok.injEq, Prod.mk.injEq] at h
          obtain ⟨rfl, rfl⟩ := h
          exact ⟨.ifs hnc hns hnel (by intro s hs; simp at hs), hg₆⟩
      · simp only [Except.ok.injEq, Prod.mk.injEq] at h
        obtain ⟨rfl, rfl⟩ := h
        exact ⟨.ifs hnc hns hnel (by intro s hs; simp at hs), hg₆⟩
    -- elif_loop
    · intro toks nodes rest h hg
      match toks with
      | [] =>
        simp only [elif_loop, Except.ok.injEq, Prod.mk.injEq] at h
        obtain ⟨rfl, rfl⟩ := h
        exact ⟨by simp, hg⟩
      | tok :: toks₀ =>
        simp only [elif_loop] at h
        split at h
        · obtain ⟨⟨node, toks₁⟩, hif, h⟩ := bind_ok_iff.mp h
          obtain ⟨hne, hg₁⟩ := ihIf _ _ _ hif hg
          obtain ⟨⟨nodes₁, toks₂⟩, hloop, h⟩ := bind_ok_iff.mp h
          obtain ⟨hns, hg₂⟩ := ihElif _ _ _ hloop hg₁
          simp only [Except.ok.injEq, Prod.mk.injEq] at h
          obtain ⟨rfl, rfl⟩ := h
          refine ⟨?_, hg₂⟩
          intro n hn
          rcases List.mem_cons.mp hn with rfl | hm
          · exact hne
          · exact hns n hm
        · simp only [Except.ok.injEq, Prod.mk.injEq] at h
          obtain ⟨rfl, rfl⟩ := h
          exact ⟨by simp, hg⟩
    -- factor
    · intro toks node rest h hg
      match toks with
      | [] => simp [factor] at h
      | tok :: toks₀ =>
        simp only [factor] at h
        split at h
        · obtain ⟨⟨ptok, toks₁⟩, heatP, h⟩ := bind_ok_iff.mp h
          have hg₁ := (eat_good heatP hg).2
          obtain ⟨⟨node₁, toks₂⟩, hexpr, h⟩ := bind_ok_iff.mp h
          obtain ⟨hne, hg₂⟩ := ihExpr _ _ _ hexpr hg₁
          obtain ⟨⟨ctok, toks₃⟩, heatC, h⟩ := bind_ok_iff.mp h
          have hg₃ := (eat_good heatC hg₂).2
          simp only [Except.ok.injEq, Prod.mk.injEq] at h
          obtain ⟨rfl, rfl⟩ := h
          exact ⟨hne, hg₃⟩
        · by_cases hminus : tok.type = some TokenType.MINUS
          · simp only [hminus, ok_bind] at h
            obtain ⟨toks₁, hm, h⟩ := bind_ok_iff.mp h
            obtain ⟨⟨mtok, mrest⟩, heatM, hmm⟩ := map_ok_iff.mp hm
            have hg₁ : GoodToks toks₁ := by
              have hh := (eat_good heatM hg).2
              simpa [← hmm] using hh
            obtain ⟨⟨vtok, toksE⟩, heatV, h⟩ := bind_ok_iff.mp h
            have hgE := (eat_good heatV hg₁).2
            rcases hvt : vtok.type with _ | tt <;> rw [hvt] at h <;> (try simp only at h)
            · simp at h
            · cases tt
              · simp at h
              · simp at h
              · simp at h
              · simp at h
              · simp only at h
                simp only [Except.ok.injEq, Prod.mk.injEq] at h
                obtain ⟨rfl, rfl⟩ := h
                exact ⟨.ref, hgE⟩
              · simp at h
              · simp only at h
                simp only [Except.ok.injEq, Prod.mk.injEq] at h
                obtain ⟨rfl, rfl⟩ := h
                exact ⟨.lit, hgE⟩
              all_goals simp at h
          · by_cases hplus : tok.type = some TokenType.PLUS
            · simp only [hminus, hplus, ok_bind] at h
              obtain ⟨toks₁, hm, h⟩ := bind_ok_iff.mp h
              obtain ⟨⟨mtok, mrest⟩, heatM, hmm⟩ := map_ok_iff.mp hm
              have hg₂ : GoodToks toks₁ := by
                have hh := (eat_good heatM hg).2
                simpa [← hmm] using hh
              obtain ⟨⟨vtok, toksE⟩, heatV, h⟩ := bind_ok_iff.mp h
              have hgE := (eat_good heatV hg₂).2
              rcases hvt : vtok.type with _ | tt <;> rw [hvt] at h <;> (try simp only at h)
              · simp at h
              · cases tt
                · simp at h
                · simp at h
                · simp at h
                · simp at h
                · simp only at h
                  simp only [Except.ok.injEq, Prod.mk.injEq] at h
                  obtain ⟨rfl, rfl⟩ := h
                  exact ⟨.ref, hgE⟩
                · simp at h
                · simp only at h
                  simp only [Except.ok.injEq, Prod.mk.injEq] at h
                  obtain ⟨rfl, rfl⟩ := h
                  exact ⟨.lit, hgE⟩
                all_goals simp at h
            · simp only [hminus, hplus, ok_bind] at h
              have hg₂ : GoodToks (tok :: toks₀) := hg
              obtain ⟨⟨vtok, toksE⟩, heatV, h⟩ := bind_ok_iff.mp h
              have hgE := (eat_good heatV hg₂).2
              rcases hvt : vtok.type with _ | tt <;> rw [hvt] at h <;> (try simp only at h)
              · simp at h
              · cases tt
                · simp at h
                · simp at h
                · simp at h
                · simp at h
                · simp only at h
                  simp only [Except.ok.injEq, Prod.mk.injEq] at h
                  obtain ⟨rfl, rfl⟩ := h
                  exact ⟨.ref, hgE⟩
                · simp at h
                · simp only at h
                  simp only [Except.ok.injEq, Prod.mk.injEq] at h
                  obtain ⟨rfl, rfl⟩ := h
                  exact ⟨.lit, hgE⟩
                all_goals simp at h
    -- mult
    · intro toks node rest h hg
      simp only [mult] at h
      obtain ⟨⟨node₁, toks₁⟩, hfac, h⟩ := bind_ok_iff.mp h
      obtain ⟨hne, hg₁⟩ := ihFactor _ _ _ hfac hg
      exact ihMultLoop _ _ _ _ h hg₁ hne
    -- mult_loop
    · intro node₀ toks node rest h hg hn₀
      match toks with
      | [] =>
        simp only [mult_loop, Except.ok.injEq, Prod.mk.injEq] at h
        obtain ⟨rfl, rfl⟩ := h
        exact ⟨hn₀, hg⟩
      | tok :: toks₀ =>
        simp only [mult_loop] at h
        split at h
        · obtain ⟨⟨otok, toks₁⟩, heatO, h⟩ := bind_ok_iff.mp h
          have hg₁ := (eat_good heatO hg).2
          obtain ⟨⟨r, toks₂⟩, hfac, h⟩ := bind_ok_iff.mp h
          obtain ⟨hnr, hg₂⟩ := ihFactor _ _ _ hfac hg₁
          exact ihMultLoop _ _ _ _ h hg₂ (.arith hn₀ hnr)
        · simp only [Except.ok.injEq, Prod.mk.injEq] at h
          obtain ⟨rfl, rfl⟩ := h
          exact ⟨hn₀, hg⟩
    -- expr
    · intro toks node rest h hg
      simp only [expr] at h
      obtain ⟨⟨node₁, toks₁⟩, hmul, h⟩ := bind_ok_iff.mp h
      obtain ⟨hne, hg₁⟩ := ihMult _ _ _ hmul hg
      exact ihExprLoop _ _ _ _ h hg₁ hne
    -- expr_loop
    · intro node₀ toks node rest h hg hn₀
      match toks with
      | [] =>
        simp only [expr_loop, Except.ok.injEq, Prod.mk.injEq] at h
        obtain ⟨rfl, rfl⟩ := h
        exact ⟨hn₀, hg⟩
      | tok :: toks₀ =>
        simp only [expr_loop] at h
        split at h
        · obtain ⟨⟨otok, toks₁⟩, heatO, h⟩ := bind_ok_iff.mp h
          have hg₁ := (eat_good heatO hg).2
          obtain ⟨⟨r, toks₂⟩, hmul, h⟩ := bind_ok_iff.mp h
          obtain ⟨hnr, hg₂⟩ := ihMult _ _ _ hmul hg₁
          exact ihExprLoop _ _ _ _ h hg₂ (.arith hn₀ hnr)
        · simp only [Except.ok.injEq, Prod.mk.injEq] at h
          obtain ⟨rfl, rfl⟩ := h
          exact ⟨hn₀, hg⟩
    -- comparison_expr
    · intro toks node rest h hg
      simp only [comparison_expr] at h
      obtain ⟨⟨node₁, toks₁⟩, hexp, h⟩ := bind_ok_iff.mp h
      obtain ⟨hne, hg₁⟩ := ihExpr _ _ _ hexp hg
      exact ihCompLoop _ _ _ _ h hg₁ hne
    -- comparison_loop
    · intro node₀ toks node rest h hg hn₀
      match toks with
      | [] =>
        simp only [comparison_loop, Except.ok.injEq, Prod.mk.injEq] at h
        obtain ⟨rfl, rfl⟩ := h
        exact ⟨hn₀, hg⟩
      | tok :: toks₀ =>
        simp only [comparison_loop] at h
        split at h
        · obtain ⟨⟨otok, toks₁⟩, heatO, h⟩ := bind_ok_iff.mp h
          have hg₁ := (eat_good heatO hg).2
          obtain ⟨⟨r, toks₂⟩, hexp, h⟩ := bind_ok_iff.mp h
          obtain ⟨hnr, hg₂⟩ := ihExpr _ _ _ hexp hg₁
          exact ihCompLoop _ _ _ _ h hg₂ (.comp hn₀ hnr)
        · simp only [Except.ok.injEq, Prod.mk.injEq] at h
          obtain ⟨rfl, rfl⟩ := h
          exact ⟨hn₀, hg⟩

theorem envGet_envAdd_ne {env : Env} {name name₂ : String} {v : Value}
    (h : name ≠ name₂) : envGet (envAdd env name v) name₂ = envGet env name₂ := by
  simp [envAdd, envGet, List.find?_cons, h]

/-- (d), evaluation: running any node whose assignments all bind nonempty names
cannot create a binding for the empty name. -/
theorem eval_preserves : ∀ fuel : ℕ,
    (∀ node env res, NoEmptyAssign node → envGet env "" = Option.none →
      evalNode fuel node env = .ok res → envGet res.2.1 "" = Option.none)
    ∧ (∀ stmts env res, (∀ s ∈ stmts, NoEmptyAssign s) → envGet env "" = Option.none →
      evalSeq fuel stmts env = .ok res → envGet res.1 "" = Option.none)
    ∧ (∀ elifs env res, (∀ s ∈ elifs, NoEmptyAssign s) → envGet env "" = Option.none →
      evalElifs fuel elifs env = .ok res → envGet res.2.1 "" = Option.none)
    ∧ (∀ n blk env res, (∀ s ∈ blk, NoEmptyAssign s) → envGet env "" = Option.none →
      evalRepeatN fuel n blk env = .ok res → envGet res.1 "" = Option.none) := by
  intro fuel
  induction fuel with
  | zero =>
    refine ⟨?_, ?_, ?_, ?_⟩ <;>
      (intros
       simp_all [evalNode, evalSeq, evalElifs, evalRepeatN])
  | succ fuel ih =>
    obtain ⟨ihN, ihS, ihE, ihR⟩ := ih
    refine ⟨?_, ?_, ?_, ?_⟩
    · intro node env res hne henv h
      cases node with
      | Module stmts =>
        cases hne with
        | mod hs =>
          simp only [evalNode] at h
          obtain ⟨⟨env₁, out⟩, hseq, h⟩ := bind_ok_iff.mp h
          simp only [Except.ok.injEq] at h
          subst h
          exact ihS _ _ _ hs henv hseq
      | Literal v st =>
        simp only [evalNode, Except.ok.injEq] at h
        subst h
        exact henv
      | Reference name st =>
        simp only [evalNode] at h
        obtain ⟨v, hget, h⟩ := bind_ok_iff.mp h
        simp only [Except.ok.injEq] at h
        subst h
        exact henv
      | ArithmeticOp l op rg st =>
        cases hne with
        | arith hl hr =>
          simp only [evalNode] at h
          obtain ⟨⟨a, env₁, o₁⟩, h₁, h⟩ := bind_ok_iff.mp h
          obtain ⟨⟨b, env₂, o₂⟩, h₂, h⟩ := bind_ok_iff.mp h
          obtain ⟨v, hv, h⟩ := bind_ok_iff.mp h
          have henv₂ := ihN _ _ _ hr (ihN _ _ _ hl henv h₁) h₂
          simp only [Except.ok.injEq] at h
          subst h
          exact henv₂
      | CompOp l op rg =>
        cases hne with
        | comp hl hr =>
          simp only [evalNode] at h
          obtain ⟨⟨a, env₁, o₁⟩, h₁, h⟩ := bind_ok_iff.mp h
          obtain ⟨⟨b, env₂, o₂⟩, h₂, h⟩ := bind_ok_iff.mp h
          obtain ⟨v, hv, h⟩ := bind_ok_iff.mp h
          have henv₂ := ihN _ _ _ hr (ihN _ _ _ hl henv h₁) h₂
          simp only [Except.ok.injEq] at h
          subst h
          exact henv₂
      | Assignment name value =>
        cases hne with
        | assign hn hv =>
          simp only [evalNode] at h
          obtain ⟨⟨v, env₁, o₁⟩, h₁, h⟩ := bind_ok_iff.mp h
          simp only [Except.ok.injEq] at h
          subst h
          have henv₁ := ihN _ _ _ hv henv h₁
          simpa [envGet_envAdd_ne hn] using henv₁
      | Ternary c t f =>
        cases hne with
        | tern hc ht hf =>
          simp only [evalNode] at h
          obtain ⟨⟨v, env₁, o₁⟩, h₁, h⟩ := bind_ok_iff.mp h
          have henv₁ := ihN _ _ _ hc henv h₁
          split at h
          · obtain ⟨⟨w, env₂, o₂⟩, h₂, h⟩ := bind_ok_iff.mp h
            have henv₂ := ihN _ _ _ ht henv₁ h₂
            simp only [Except.ok.injEq] at h
            subst h
            exact henv₂
          · obtain ⟨⟨w, env₂, o₂⟩, h₂, h⟩ := bind_ok_iff.mp h
            have henv₂ := ihN _ _ _ hf henv₁ h₂
            simp only [Except.ok.injEq] at h
            subst h
            exact henv₂
      | IfStatement c blk elifs els =>
        cases hne with
        | ifs hc hb hel hels =>
          simp only [evalNode] at h
          obtain ⟨⟨v, env₁, o₁⟩, h₁, h⟩ := bind_ok_iff.mp h
          have henv₁ := ihN _ _ _ hc henv h₁
          split at h
          · obtain ⟨⟨env₂, o₂⟩, h₂, h⟩ := bind_ok_iff.mp h
            have henv₂ := ihS _ _ _ hb henv₁ h₂
            simp only [Except.ok.injEq] at h
            subst h
            exact henv₂
          · obtain ⟨⟨handled, env₂, o₂⟩, h₂, h⟩ := bind_ok_iff.mp h
            have henv₂ := ihE _ _ _ hel henv₁ h₂
            split at h
            · simp only [Except.ok.injEq] at h
              subst h
              exact henv₂
            · obtain ⟨⟨env₃, o₃⟩, h₃, h⟩ := bind_ok_iff.mp h
              have henv₃ := ihS _ _ _ hels henv₂ h₃
              simp only [Except.ok.injEq] at h
              subst h
              exact henv₃
      | Repeat times blk =>
        cases hne with
        | rep ht hb =>
          simp only [evalNode] at h
          obtain ⟨⟨v, env₁, o₁⟩, h₁, h⟩ := bind_ok_iff.mp h
          obtain ⟨n, hn, h⟩ := bind_ok_iff.mp h
          obtain ⟨⟨env₂, o₂⟩, h₂, h⟩ := bind_ok_iff.mp h
          have henv₂ := ihR _ _ _ _ hb (ihN _ _ _ ht henv h₁) h₂
          simp only [Except.ok.injEq] at h
          subst h
          exact henv₂
    · intro stmts env res hs henv h
      match stmts with
      | [] =>
        simp only [evalSeq, Except.ok.injEq] at h
        subst h
        exact henv
      | s :: rest =>
        simp only [evalSeq] at h
        obtain ⟨⟨v, env₁, o₁⟩, h₁, h⟩ := bind_ok_iff.mp h
        obtain ⟨⟨env₂, o₂⟩, h₂, h⟩ := bind_ok_iff.mp h
        have henv₂ := ihS _ _ _ (fun x hx => hs x (by simp [hx]))
          (ihN _ _ _ (hs s (by simp)) henv h₁) h₂
        simp only [Except.ok.injEq] at h
        subst h
        exact henv₂
    · intro elifs env res hs henv h
      match elifs with
      | [] =>
        simp only [evalElifs, Except.ok.injEq] at h
        subst h
        exact henv
      | e :: rest =>
        simp only [evalElifs] at h
        obtain ⟨⟨v, env₁, o₁⟩, h₁, h⟩ := bind_ok_iff.mp h
        have henv₁ := ihN _ _ _ (hs e (by simp)) henv h₁
        split at h
        · simp only [Except.ok.injEq] at h
          subst h
          exact henv₁
        · obtain ⟨⟨b, env₂, o₂⟩, h₂, h⟩ := bind_ok_iff.mp h
          have henv₂ := ihE _ _ _ (fun x hx => hs x (by simp [hx])) henv₁ h₂
          simp only [Except.ok.injEq] at h
          subst h
          exact henv₂
    · intro n blk env res hs henv h
      match n with
      | 0 =>
        simp only [evalRepeatN, Except.ok.injEq] at h
        subst h
        exact henv
      | m + 1 =>
        simp only [evalRepeatN] at h
        obtain ⟨⟨env₁, o₁⟩, h₁, h⟩ := bind_ok_iff.mp h
        obtain ⟨⟨env₂, o₂⟩, h₂, h⟩ := bind_ok_iff.mp h
        have henv₂ := ihR _ _ _ _ hs (ihS _ _ _ hs henv h₁) h₂
        simp only [Except.ok.injEq] at h
        subst h
        exact henv₂

/-- (d), rendering: emitting any node whose assignments all bind nonempty names
cannot create a binding for the empty name either (rendering an assignment
evaluates its right-hand side and stores the value, so this rests on the
evaluation-side lemma). -/
theorem compile_preserves : ∀ fuel : ℕ,
    (∀ node env indent res, NoEmptyAssign node → envGet env "" = Option.none →
      compileNode fuel node env indent = .ok res → envGet res.2 "" = Option.none)
    ∧ (∀ stmts env indent res, (∀ s ∈ stmts, NoEmptyAssign s) →
      envGet env "" = Option.none →
      compileSeq fuel stmts env indent = .ok res → envGet res.2 "" = Option.none) := by
  intro fuel
  induction fuel with
  | zero =>
    refine ⟨?_, ?_⟩ <;>
      (intros
       simp_all [compileNode, compileSeq])
  | succ fuel ih =>
    obtain ⟨ihN, ihS⟩ := ih
    refine ⟨?_, ?_⟩
    · intro node env indent res hne henv h
      cases node with
      | Module stmts =>
        cases hne with
        | mod hs =>
          simp only [compileNode] at h
          obtain ⟨⟨codes, env₁⟩, hseq, h⟩ := bind_ok_iff.mp h
          have henv₁ := ihS _ _ _ _ hs henv hseq
          simp only [Except.ok.injEq] at h
          subst h
          exact henv₁
      | Literal v st =>
        simp only [compileNode] at h
        split at h <;>
          (simp only [Except.ok.injEq] at h
           subst h
           exact henv)
      | Reference name st =>
        simp only [compileNode] at h
        obtain ⟨v, hget, h⟩ := bind_ok_iff.mp h
        split at h <;>
          (simp only [Except.ok.injEq] at h
           subst h
           exact henv)
      | ArithmeticOp l op rg st =>
        cases hne with
        | arith hl hr =>
          simp only [compileNode] at h
          obtain ⟨⟨ls, env₁⟩, h₁, h⟩ := bind_ok_iff.mp h
          obtain ⟨⟨rs, env₂⟩, h₂, h⟩ := bind_ok_iff.mp h
          have henv₂ := ihN _ _ _ _ hr (ihN _ _ _ _ hl henv h₁) h₂
          split at h <;>
            (simp only [Except.ok.injEq] at h
             subst h
             exact henv₂)
      | CompOp l op rg =>
        cases hne with
        | comp hl hr =>
          simp only [compileNode] at h
          obtain ⟨⟨ls, env₁⟩, h₁, h⟩ := bind_ok_iff.mp h
          obtain ⟨⟨rs, env₂⟩, h₂, h⟩ := bind_ok_iff.mp h
          have henv₂ := ihN _ _ _ _ hr (ihN _ _ _ _ hl henv h₁) h₂
          simp only [Except.ok.injEq] at h
          subst h
          exact henv₂
      | Assignment name value =>
        cases hne with
        | assign hn hv =>
          simp only [compileNode] at h
          split at h
          · obtain ⟨⟨v, env₁, o₁⟩, h₁, h⟩ := bind_ok_iff.mp h
            have henv₁ := (eval_preserves fuel).1 _ _ _ hv henv h₁
            have henv₂ : envGet (envAdd env₁ name v) "" = Option.none := by
              simpa [envGet_envAdd_ne hn] using henv₁
            obtain ⟨⟨vs, env₃⟩, h₃, h⟩ := bind_ok_iff.mp h
            have henv₃ := ihN _ _ _ _ hv henv₂ h₃
            simp only [Except.ok.injEq] at h
            subst h
            exact henv₃
          · obtain ⟨⟨vs, env₁⟩, h₁, h⟩ := bind_ok_iff.mp h
            have henv₁ := ihN _ _ _ _ hv henv h₁
            simp only [Except.ok.injEq] at h
            subst h
            exact henv₁
      | Ternary c t f =>
        cases hne with
        | tern hc ht hf =>
          simp only [compileNode] at h
          obtain ⟨⟨cs, env₁⟩, h₁, h⟩ := bind_ok_iff.mp h
          obtain ⟨⟨ts, env₂⟩, h₂, h⟩ := bind_ok_iff.mp h
          obtain ⟨⟨fs, env₃⟩, h₃, h⟩ := bind_ok_iff.mp h
          have henv₃ := ihN _ _ _ _ hf (ihN _ _ _ _ ht (ihN _ _ _ _ hc henv h₁) h₂) h₃
          simp only [Except.ok.injEq] at h
          subst h
          exact henv₃
      | IfStatement c blk elifs els =>
        cases hne with
        | ifs hc hb hel hels =>
          simp only [compileNode] at h
          obtain ⟨⟨cs, env₁⟩, h₁, h⟩ := bind_ok_iff.mp h
          obtain ⟨⟨blks, env₂⟩, h₂, h⟩ := bind_ok_iff.mp h
          obtain ⟨⟨elifCodes, env₃⟩, h₃, h⟩ := bind_ok_iff.mp h
          have henv₃ := ihS _ _ _ _ hel (ihS _ _ _ _ hb (ihN _ _ _ _ hc henv h₁) h₂) h₃
          split at h
          · simp only [Except.ok.injEq] at h
            subst h
            exact henv₃
          · obtain ⟨⟨elsCodes, env₄⟩, h₄, h⟩ := bind_ok_iff.mp h
            have henv₄ := ihS _ _ _ _ hels henv₃ h₄
            simp only [Except.ok.injEq] at h
            subst h
            exact henv₄
      | Repeat times blk =>
        cases hne with
        | rep ht hb =>
          simp only [compileNode] at h
          obtain ⟨⟨tv, env₁, o₁⟩, h₁, h⟩ := bind_ok_iff.mp h
          obtain ⟨⟨blks, env₂⟩, h₂, h⟩ := bind_ok_iff.mp h
          have henv₂ := ihS _ _ _ _ hb ((eval_preserves fuel).1 _ _ _ ht henv h₁) h₂
          simp only [Except.ok.injEq] at h
          subst h
          exact henv₂
    · intro stmts env indent res hs henv h
      match stmts with
      | [] =>
        simp only [compileSeq, Except.ok.injEq] at h
        subst h
        exact henv
      | s :: rest =>
        simp only [compileSeq] at h
        obtain ⟨⟨code, env₁⟩, h₁, h⟩ := bind_ok_iff.mp h
        obtain ⟨⟨codes, env₂⟩, h₂, h⟩ := bind_ok_iff.mp h
        have henv₂ := ihS _ _ _ _ (fun x hx => hs x (by simp [hx]))
          (ihN _ _ _ _ (hs s (by simp)) henv h₁) h₂
        simp only [Except.ok.injEq] at h
        subst h
        exact henv₂

/-- (a): `factor` on `-` followed by an identifier multiplies the identifier's
string by `-1`, producing the empty string as the reference's name. -/
theorem factor_minus_id (fuel : ℕ) (minusTok idTok : Token) (s : String)
    (rest : List Token) (hm : minusTok.type = some TokenType.MINUS)
    (hid : idTok.type = some TokenType.ID) (hv : idTok.value = .str s) :
    factor (fuel + 1) (minusTok :: idTok :: rest) = .ok (.Reference "" false, rest) := by
  have hmul : TokenValue.mulStr idTok.value (-1) = "" := by
    rw [hv]
    simp [TokenValue.mulStr, pyStrMul]
  simp [factor, hm, hid, eat, hmul, Except.map, ok_bind]

/-- C10: with `-` before an identifier, `factor` multiplies the identifier's
string payload by -1 and so builds `Reference ""`; lexer-emitted `ID` tokens
always carry nonempty names, hence every `Assignment` a parse builds — and
therefore every binding evaluation or rendering can create — uses a nonempty
name; consequently evaluating or rendering the `Reference ""` node under any
environment such a program can reach fails with the unresolved-identifier
error. -/
theorem claims_C10 :
    (∀ fuel minusTok idTok s rest, minusTok.type = some TokenType.MINUS →
      idTok.type = some TokenType.ID → idTok.value = .str s →
      factor (fuel + 1) (minusTok :: idTok :: rest) = .ok (.Reference "" false, rest))
    ∧ (∀ fuel st toks, tokenizeLoop fuel st = .ok toks → GoodToks toks)
    ∧ (∀ fuel toks m, GoodToks toks → parse fuel toks = .ok m → NoEmptyAssign m)
    ∧ (∀ fuel node env res, NoEmptyAssign node → envGet env "" = Option.none →
        evalNode fuel node env = .ok res → envGet res.2.1 "" = Option.none)
    ∧ (∀ fuel node env indent res, NoEmptyAssign node → envGet env "" = Option.none →
        compileNode fuel node env indent = .ok res → envGet res.2 "" = Option.none)
    ∧ (∀ fuel st env indent, envGet env "" = Option.none →
        evalNode (fuel + 1) (.Reference "" st) env = .error (.unresolvedIdentifier "")
        ∧ compileNode (fuel + 1) (.Reference "" st) env indent
            = .error (.unresolvedIdentifier "")) := by
  refine ⟨?_, tokenizeLoop_good, ?_, ?_, ?_, ?_⟩
  · intro fuel minusTok idTok s rest hm hid hv
    exact factor_minus_id fuel minusTok idTok s rest hm hid hv
  · intro fuel toks m hg h
    simp only [parse] at h
    obtain ⟨⟨stats, rest⟩, hstmts, h⟩ := map_ok_iff.mp h
    subst h
    exact .mod ((parser_invariant fuel).1 _ _ _ _ hstmts hg).1
  · intro fuel node env res hne henv h
    exact (eval_preserves fuel).1 node env res hne henv h
  · intro fuel node env indent res hne henv h
    exact (compile_preserves fuel).1 node env indent res hne henv h
  · intro fuel st env indent henv
    have hg : get_or_raise env "" = .error (.unresolvedIdentifier "") := by
      simp [get_or_raise, henv]
    exact ⟨by simp [evalNode, hg, error_bind], by simp [compileNode, hg, error_bind]⟩

set_option maxRecDepth 8000 in
/-- Instance of C10's clauses at concrete inputs: `- x` parses to
`Reference ""`; the tokens of `x` are well-formed; the parse of `let x = 5;`
satisfies the nonempty-assignment invariant; evaluating and rendering it from
the empty environment binds nothing under the empty name; and the empty-name
reference fails to resolve. -/
theorem claims_C10_witness :
    factor 9 [⟨some .MINUS, .str "-", 1, 1⟩, ⟨some .ID, .str "x", 1, 3⟩]
      = .ok (.Reference "" false, [])
    ∧ GoodToks [⟨some .ID, .str "x", 1, 1⟩]
    ∧ NoEmptyAssign (.Module [.Assignment "x" (.Literal 5 false)])
    ∧ envGet [("x", Value.int 5)] "" = Option.none
    ∧ envGet [("x", Value.int 5)] "" = Option.none
    ∧ evalNode 1 (.Reference "" false) [] = .error (.unresolvedIdentifier "") := by
  refine ⟨claims_C10.1 8 _ _ "x" [] rfl rfl rfl,
    claims_C10.2.1 3 ⟨"x".toList, 1, 1⟩ _ rfl,
    claims_C10.2.2.1 50
      [⟨some .LET, .str "let", 1, 1⟩, ⟨some .ID, .str "x", 1, 5⟩,
       ⟨some .EQUAL, .str "=", 1, 7⟩, ⟨some .INT, .int 5, 1, 9⟩,
       ⟨some .SEMICOLON, .str ";", 1, 10⟩]
      (.Module [.Assignment "x" (.Literal 5 false)]) ?_ rfl,
    claims_C10.2.2.2.1 4 (.Module [.Assignment "x" (.Literal 5 false)]) []
      (Value.none, [("x", Value.int 5)], []) ?_ rfl rfl,
    claims_C10.2.2.2.2.1 4 (.Module [.Assignment "x" (.Literal 5 false)]) [] 0
      ("#include <stdio.h>\n#include <time.h>\n\nint main() \x7b\n    clock_t start_time = clock();\n    int x = 5;\n    double elapsed_time = (double)(clock() - start_time) / CLOCKS_PER_SEC;\n    printf(\"Ausgeführt in %f Sekunden.\\n\", elapsed_time);\n    return 0;\n\x7d", [("x", Value.int 5)]) ?_ rfl rfl,
    (claims_C10.2.2.2.2.2 0 false [] 0 rfl).1⟩
  · intro tok htok
    rcases List.mem_cons.mp htok with rfl | h₁
    · intro hx; simp at hx
    · rcases List.mem_cons.mp h₁ with rfl | h₂
      · intro _
        exact ⟨"x", rfl, by decide⟩
      · rcases List.mem_cons.mp h₂ with rfl | h₃
        · intro hx; simp at hx
        · rcases List.mem_cons.mp h₃ with rfl | h₄
          · intro hx; simp at hx
          · rcases List.mem_cons.mp h₄ with rfl | h₅
            · intro hx; simp at hx
            · simp at h₅
  · exact .mod (by
      intro n hn
      rcases List.mem_cons.mp hn with rfl | hm
      · exact .assign (by decide) .lit
      · simp at hm)
  · exact .mod (by
      intro n hn
      rcases List.mem_cons.mp hn with rfl | hm
      · exact .assign (by decide) .lit
      · simp at hm)
